import Mathlib

/-!
Verification of the lyse FileBox/analysis-loop subsystem against its
natural-language specification.

The definitions below are a shallow embedding of the relevant parts of
`lyse/main_window.py` and `lyse/analysis_subprocess.py`:

* Python dicts that the code iterates over in insertion order are embedded as
  association lists (`List (α × β)`) with insertion-order-preserving update
  (`dictInsert`) and deletion (`eraseKey`), mirroring CPython dict semantics.
* The pandas dataframe is embedded at two granularities, matching the two
  groups of claims: a row-level view (`ShotsModel`, for the FileBox table
  claims) and a column-level view (`ColState`, for the dynamic-schema claims).
* Threads exchange values through queues; each loop body is embedded as a pure
  step function over the queue contents it consumes.
-/

namespace Lyse
/-! ### Association-list dictionaries (CPython dict semantics) -/

/-- Lookup of a key in an insertion-ordered dictionary, `d[k]` /
`d.get(k)`. -/
def Dict.find {α β : Type} [DecidableEq α] : List (α × β) → α → Option β
  | [], _ => none
  | p :: m, k => if p.1 = k then some p.2 else Dict.find m k

/-- `d[k] = v` on a CPython dict: overwrite in place if the key is present
(preserving insertion order), otherwise append at the end. -/
def dictInsert {α β : Type} [DecidableEq α] (m : List (α × β)) (k : α) (v : β) :
    List (α × β) :=
  if m.any (fun p => p.1 = k) then
    m.map (fun p => if p.1 = k then (k, v) else p)
  else m ++ [(k, v)]

/-- `del d[k]` on a CPython dict (keys are unique, so deleting the one entry
with key `k` is a filter). -/
def eraseKey {α β : Type} [DecidableEq α] (m : List (α × β)) (k : α) :
    List (α × β) :=
  m.filter (fun p => p.1 ≠ k)

/-- Whether `k in d` holds for a dict `d`. -/
def hasKey {α β : Type} [DecidableEq α] (m : List (α × β)) (k : α) : Bool :=
  m.any (fun p => p.1 = k)

/-! ### First-occurrence deduplication

`incoming_buffer_loop` removes duplicates from a batch with
`sorted(set(filepaths), key=filepaths.index)`: the distinct elements of the
list, ordered by the position of their first occurrence.  That is exactly the
function that keeps the first occurrence of each element and drops the later
duplicates. -/

/-- `sorted(set(l), key=l.index)`: keep the first occurrence of each element,
drop later duplicates. -/
def dedupFirst {α : Type} [DecidableEq α] : List α → List α
  | [] => []
  | x :: xs => x :: dedupFirst (xs.filter (fun y => y ≠ x))
termination_by l => l.length
decreasing_by
  simp only [List.length_cons]
  exact Nat.lt_succ_of_le (List.length_filter_le _ _)

/-! ### C5: batching in `FileBox.incoming_buffer_loop`

```python
filepaths = []
filepath = self.incoming_queue.get()          # blocking get
filepaths.append(filepath)
...
batch_size = len(self.shots_model.dataframe) // 3 + 1
while True:
    try:
        filepath = self.incoming_queue.get(False)
    except queue.Empty:
        break
    else:
        filepaths.append(filepath)
        if len(filepaths) >= batch_size:
            break
```
-/

/-- The drain loop above: `queued` is the content of `incoming_queue` after the
blocking `get`, `acc` the filepaths batched so far. -/
def drainBatch (batch_size : Nat) : List String → List String → List String
  | [], acc => acc
  | f :: queued, acc =>
      if batch_size ≤ (acc ++ [f]).length then acc ++ [f]
      else drainBatch batch_size queued (acc ++ [f])

/-- One batch collected by `incoming_buffer_loop`: `first` is the filepath from
the blocking `get`, `queued` the filepaths then available in the queue, and
`df_len` is `len(self.shots_model.dataframe)` when the batch size is
computed. -/
def incomingBatch (df_len : Nat) (first : String) (queued : List String) :
    List String :=
  drainBatch (df_len / 3 + 1) queued [first]

/-! ### Row-level embedding of `DataFrameModel`

The claims about rows need, for each shot, the filepath and the two custom
data roles kept on the status item (`ROLE_STATUS_PERCENT`,
`ROLE_DELETED_OFF_DISK`), the dataframe rows, and the
`row_number_by_filepath` dict.  Data cells of the Qt model and the column
bookkeeping are embedded separately (`ColState` below). -/

/-- One row of the Qt model: the text of the filepath item plus the data roles
on the status item. -/
structure QtRow where
  filepath : String
  status_percent : Nat
  deleted_off_disk : Bool
deriving DecidableEq, Repr

/-- One row of the backing pandas dataframe: its filepath column and the other
fields, keyed by `(group, name)` as in `updated_row_data`. -/
structure DfRow where
  filepath : String
  fields : List ((String × String) × String)
deriving DecidableEq, Repr

/-- The row-level state of `DataFrameModel`.  The pandas index is the list
position: `remove_selection` and `add_files` keep it equal to
`range(len(dataframe))` in the code, which the list embedding makes
structural. -/
structure ShotsModel where
  dataframe : List DfRow
  qt_rows : List QtRow
  row_number_by_filepath : List (String × Nat)
  previous_n_digits : Nat
deriving DecidableEq, Repr

/-- The model as built in `DataFrameModel.__init__`: a dataframe with no rows,
no Qt rows, and `_previous_n_digits = 0`. -/
def initialShotsModel : ShotsModel :=
  { dataframe := [], qt_rows := [], row_number_by_filepath := [],
    previous_n_digits := 0 }

/-- In-place update of the element at position `n` (`self._model.item(n, c)`
mutation, `dataframe.at[n, col] = value`). -/
def listModify {α : Type} : Nat → (α → α) → List α → List α
  | _, _, [] => []
  | 0, f, a :: l => f a :: l
  | n + 1, f, a :: l => a :: listModify n f l

/-- `DataFrameModel.renumber_rows`: rebuilds the row labels and
`row_number_by_filepath` from `add_from` on; if the digit count of the row
numbers changed, everything is renumbered; if `add_from == 0` the dict is
rebuilt from scratch. -/
def renumber_rows (s : ShotsModel) (add_from : Nat) : ShotsModel :=
  let n_digits := (toString s.qt_rows.length).length
  let add_from' := if n_digits ≠ s.previous_n_digits then 0 else add_from
  let base : List (String × Nat) :=
    if add_from' = 0 then [] else s.row_number_by_filepath
  let updates := (s.qt_rows.drop add_from').enum.map
    (fun p => (p.2.filepath, add_from' + p.1))
  { s with previous_n_digits := n_digits,
           row_number_by_filepath :=
             updates.foldl (fun m p => dictInsert m p.1 p.2) base }

/-- `DataFrameModel.new_row`: the fresh status and filepath items for a shot
(status percent 100 when `done`, else 0). -/
def new_row (filepath : String) (done : Bool) : QtRow :=
  { filepath := filepath
    status_percent := if done then 100 else 0
    deleted_off_disk := false }

/-- The duplicate check at the start of `DataFrameModel.add_files`: filepaths
already present in the model (`keys`) or seen earlier in the call are skipped
with a warning, and every row of `new_row_data` whose filepath matches the
duplicate is dropped (`np.where` returns all matches). -/
def dedupNewFiles (keys : List String) :
    List String → List String → List DfRow → List String × List DfRow
  | [], to_add, nrd => (to_add, nrd)
  | f :: fs, to_add, nrd =>
      if f ∈ keys ∨ f ∈ to_add then
        dedupNewFiles keys fs to_add (nrd.filter (fun r => decide (r.filepath ≠ f)))
      else
        dedupNewFiles keys fs (to_add ++ [f]) nrd

/-- `DataFrameModel.add_files`.  `concat_with_padding` is not under `src/`
(it lives in `lyse.dataframe_utilities`); modelled from the spec: it appends
the rows of `new_row_data` to the dataframe, padding column levels.  The
`assert len(new_row_data) == len(to_add)` is modelled by returning `none`
(an `AssertionError`) when the lengths disagree; the per-file
`update_row(filepath, dataframe_already_updated=True)` calls at the end only
refresh Qt data cells and do not change the row-level state. -/
def add_files (s : ShotsModel) (filepaths : List String)
    (new_row_data : List DfRow) (done : Bool) : Option ShotsModel :=
  let p := dedupNewFiles (s.row_number_by_filepath.map Prod.fst) filepaths [] new_row_data
  if p.2.length = p.1.length then
    let s₁ : ShotsModel :=
      { s with dataframe := s.dataframe ++ p.2,
               qt_rows := s.qt_rows ++ p.1.map (fun f => new_row f done) }
    some (renumber_rows s₁ (s₁.qt_rows.length - p.1.length))
  else none

/-- Removal of the rows at positions `sel` (the one-at-a-time
`self._model.removeRow(name_item.row())` deletions net to removing exactly the
selected set of positions, since the items track their rows). -/
def removeIdxs {α : Type} (sel : List Nat) (l : List α) : List α :=
  (l.enum.filter (fun p => decide (p.1 ∉ sel))).map Prod.snd

/-- `DataFrameModel.remove_selection` (with the confirmation dialog accepted):
drops the selected labels from the dataframe, resets its index to
`range(len(dataframe))`, removes the selected Qt rows, and renumbers. -/
def remove_selection (s : ShotsModel) (selected : List Nat) : ShotsModel :=
  if selected = [] then s
  else
    renumber_rows
      { s with dataframe := removeIdxs selected s.dataframe,
               qt_rows := removeIdxs selected s.qt_rows } 0

/-- The row-level effect of `DataFrameModel.update_row` with
`updated_row_data`: look the row up by filepath (a deleted row means nothing
to do), then write each `(group, name) -> value` into the dataframe row.
Schema changes are the column-level model below; dtype coercion does not
exist at this granularity. -/
def update_row (s : ShotsModel) (filepath : String)
    (updated_row_data : List ((String × String) × String)) : ShotsModel :=
  match Dict.find s.row_number_by_filepath filepath with
  | none => s
  | some row_number =>
      { s with dataframe := (listModify row_number
          (fun r => { r with
            fields := (updated_row_data.foldl
              (fun fs q => dictInsert fs q.1 q.2) r.fields) })
          s.dataframe) }

/-- `DataFrameModel.get_first_incomplete`: the filepath of the first row whose
status percent is not 100. -/
def get_first_incomplete (s : ShotsModel) : Option String :=
  (s.qt_rows.find? (fun r => decide (r.status_percent ≠ 100))).map QtRow.filepath

/-- `DataFrameModel.set_status_percent`: sets the status-percent role on the
status item of the row for `filepath` (a deleted row means nothing to do). -/
def set_status_percent (s : ShotsModel) (filepath : String) (pct : Nat) :
    ShotsModel :=
  match Dict.find s.row_number_by_filepath filepath with
  | none => s
  | some row_number =>
      { s with qt_rows := (listModify row_number
          (fun r => { r with status_percent := pct }) s.qt_rows) }

/-- `DataFrameModel.mark_selection_not_done`: for each selected row, a shot
marked deleted off disk is re-checked on disk - if the file is still missing
the row is skipped (`continue`), otherwise the flag is cleared - and then the
status percent is reset to 0. -/
def mark_selection_not_done (s : ShotsModel) (file_exists : String → Bool)
    (selected : List Nat) : ShotsModel :=
  { s with qt_rows := s.qt_rows.enum.map (fun p =>
      if p.1 ∈ selected then
        if p.2.deleted_off_disk then
          if file_exists p.2.filepath then
            { p.2 with deleted_off_disk := false, status_percent := 0 }
          else p.2
        else { p.2 with status_percent := 0 }
      else p.2) }

/-- `DataFrameModel.mark_as_deleted_off_disk`: if the shot is still in the
dataframe and not already marked, set the deleted-off-disk role and status
percent 100 on its status item.  (The `row_number_by_filepath` lookup cannot
fail in Python when the table invariant holds; a failed lookup is embedded as
a no-op.) -/
def mark_as_deleted_off_disk (s : ShotsModel) (filepath : String) : ShotsModel :=
  if filepath ∈ s.dataframe.map DfRow.filepath then
    match Dict.find s.row_number_by_filepath filepath with
    | none => s
    | some row_number =>
        match (s.qt_rows[row_number]?).map QtRow.deleted_off_disk with
        | some true => s
        | _ =>
            { s with qt_rows := (listModify row_number
                (fun r => { r with deleted_off_disk := true,
                                   status_percent := 100 }) s.qt_rows) }
  else s

/-! ### C7: rows of the Qt model, the dataframe and `row_number_by_filepath`
stay aligned -/

/-- The row alignment invariant of `DataFrameModel`: the dataframe rows and the
Qt rows carry the same filepaths in the same order (the dataframe index being
the list position, it is the contiguous range `0..n-1` by construction), each
filepath occurs in one row only, and `row_number_by_filepath` is exactly the
map from the filepath of row `i` to `i`. -/
def rowsInv (s : ShotsModel) : Prop :=
  s.dataframe.map DfRow.filepath = s.qt_rows.map QtRow.filepath ∧
  (s.qt_rows.map QtRow.filepath).Nodup ∧
  s.row_number_by_filepath =
    s.qt_rows.enum.map (fun p => (p.2.filepath, p.1))

/-! ### FileBox: the analysis loop, single-shot and multishot analysis

`FileBox` holds the shots model, the `analysis_paused` flag (set through the
pause button, also by `pause_analysis`), and the `multishot_required` flag.
The replies a routinebox sends on `from_singleshot` / `from_multishot` are
`(signal, status_percent, updated_data)` triples; the routineboxes themselves
are outside `src/`, so the replies are inputs of the model. -/

inductive Signal
  | done
  | error
  | progress
deriving DecidableEq, Repr

/-- One reply read from `from_singleshot` or `from_multishot`. -/
structure Msg where
  signal : Signal
  status_percent : Option Nat
  updated_data : List (String × List ((String × String) × String))
deriving DecidableEq, Repr

structure FileBoxState where
  shots : ShotsModel
  analysis_paused : Bool
  multishot_required : Bool
deriving DecidableEq, Repr

/-- Trace events of the analysis loop: a shot dispatched to the singleshot
routinebox, or a multishot analysis run. -/
inductive SEvent
  | dispatched (filepath : String)
  | multishot
deriving DecidableEq, Repr

/-- `FileBox.pause_analysis`: checks the pause button, whose `toggled` slot
sets `analysis_paused = True`. -/
def pause_analysis (fb : FileBoxState) : FileBoxState :=
  { fb with analysis_paused := true }

/-- `for file in updated_data: self.shots_model.update_row(file, updated_row_data=updated_data[file])`. -/
def apply_updated_data (sm : ShotsModel)
    (upd : List (String × List ((String × String) × String))) : ShotsModel :=
  upd.foldl (fun m q => update_row m q.1 q.2) sm

/-- The row updates performed for every reply in the loop of
`do_singleshot_analysis`, before the signal is inspected: `update_row` for
every file of `updated_data`, then `set_status_percent` for the analysed shot
when a status percent was sent. -/
def singleshotRowUpdates (filepath : String) (m : Msg) (sm : ShotsModel) :
    ShotsModel :=
  match m.status_percent with
  | some pct =>
      set_status_percent (apply_updated_data sm m.updated_data) filepath pct
  | none => apply_updated_data sm m.updated_data

/-- The reply loop of `FileBox.do_singleshot_analysis`: apply the row updates,
then return on `done`; on `error`, mark the shot deleted off disk if its file
no longer exists, otherwise pause analysis; keep reading on `progress`.  (The
`queue.get` blocks, so the empty-list case is never reached in the program.) -/
def processSingleshotMsgs (file_exists : String → Bool) (filepath : String) :
    List Msg → FileBoxState → FileBoxState
  | [], fb => fb
  | m :: ms, fb =>
      match m.signal with
      | .done => { fb with shots := singleshotRowUpdates filepath m fb.shots }
      | .error =>
          if file_exists filepath = false then
            { fb with shots := (mark_as_deleted_off_disk
                (singleshotRowUpdates filepath m fb.shots) filepath) }
          else pause_analysis
            { fb with shots := singleshotRowUpdates filepath m fb.shots }
      | .progress =>
          processSingleshotMsgs file_exists filepath ms
            { fb with shots := singleshotRowUpdates filepath m fb.shots }

/-- `FileBox.do_singleshot_analysis`: if the shot file does not exist, mark it
deleted off disk without dispatching; otherwise put it on `to_singleshot` (the
`dispatched` event) and run the reply loop.  `msgs` are the replies of the
singleshot routinebox for this shot. -/
def do_singleshot_analysis (file_exists : String → Bool) (msgs : List Msg)
    (filepath : String) (fb : FileBoxState) : FileBoxState × List SEvent :=
  if file_exists filepath = false then
    ({ fb with shots := mark_as_deleted_off_disk fb.shots filepath }, [])
  else
    (processSingleshotMsgs file_exists filepath msgs fb,
      [SEvent.dispatched filepath])

/-- The reply loop of `FileBox.do_multishot_analysis`: update rows; on `done`
clear `multishot_required` and return; on `error` pause analysis and return;
keep reading otherwise. -/
def processMultishotMsgs : List Msg → FileBoxState → FileBoxState
  | [], fb => fb
  | m :: ms, fb =>
      match m.signal with
      | .done =>
          { fb with shots := apply_updated_data fb.shots m.updated_data,
                    multishot_required := false }
      | .error =>
          pause_analysis
            { fb with shots := apply_updated_data fb.shots m.updated_data }
      | .progress =>
          processMultishotMsgs ms
            { fb with shots := apply_updated_data fb.shots m.updated_data }

/-- The inputs the analysis loop consumes: file existence, and the replies of
the two routineboxes (multishot replies indexed by how many multishot runs
happened before). -/
structure AnalysisEnv where
  file_exists : String → Bool
  singleshot_msgs : String → List Msg
  multishot_msgs : Nat → List Msg

/-- `FileBox.do_multishot_analysis` for the `k`-th multishot run of a pass. -/
def do_multishot_analysis (env : AnalysisEnv) (k : Nat) (fb : FileBoxState) :
    FileBoxState :=
  processMultishotMsgs (env.multishot_msgs k) fb

/-- The inner `while True` of `FileBox.analysis_loop`.  `fuel` bounds the
number of iterations (the Python loop runs until a `break`; the claims are
about what a given iteration does, not termination).  Returns the final
state, the event trace and the multishot-run counter. -/
def analysisLoopInner (env : AnalysisEnv) :
    Nat → Nat → Bool → FileBoxState → FileBoxState × List SEvent × Nat
  | 0, k, _, fb => (fb, [], k)
  | fuel + 1, k, atLeastOne, fb =>
      if fb.analysis_paused = false then
        match get_first_incomplete fb.shots with
        | some filepath =>
            let r := do_singleshot_analysis env.file_exists
              (env.singleshot_msgs filepath) filepath fb
            if r.1.multishot_required then
              let rest := analysisLoopInner env fuel (k + 1) true
                (do_multishot_analysis env k r.1)
              (rest.1, r.2 ++ SEvent.multishot :: rest.2.1, rest.2.2)
            else
              let rest := analysisLoopInner env fuel k true r.1
              (rest.1, r.2 ++ rest.2.1, rest.2.2)
        | none =>
            if atLeastOne then ({ fb with multishot_required := true }, [], k)
            else (fb, [], k)
      else (fb, [], k)

/-- One wakeup of `FileBox.analysis_loop` (between `analysis_pending.wait()`
and the next wait): run the inner loop with `at_least_one_shot_analysed =
False`, then, if `multishot_required` is still set after the loop broke, run
multishot analysis once more. -/
def analysisPass (env : AnalysisEnv) (fuel : Nat) (fb : FileBoxState) :
    FileBoxState × List SEvent :=
  let r := analysisLoopInner env fuel 0 false fb
  if r.1.multishot_required then
    (do_multishot_analysis env r.2.2 r.1, r.2.1 ++ [SEvent.multishot])
  else (r.1, r.2.1)

/-- The body of one iteration of `FileBox.incoming_buffer_loop`, from the
blocking `get` to `add_files`, which touches only the shots model: collect a
batch, deduplicate it preserving first-occurrence order, read the shot files
(`readable f` models `get_dataframe_from_shot` succeeding; `row_of f`,
modelled from the spec since `get_dataframe_from_shot` lives in
`lyse.dataframe_utilities` outside `src/`, is the single-row dataframe read
from the file), drop the filepaths not found, and add the rest to the model.
Returns the updated model (`none` when nothing was added: an empty readable
batch, or the `add_files` assertion failing before any mutation) and whether
`analysis_pending.set()` gets called. -/
def incomingStepShots (readable : String → Bool) (row_of : String → DfRow)
    (first : String) (queued : List String) (sm : ShotsModel) :
    Option ShotsModel × Bool :=
  let filepaths := dedupFirst (incomingBatch sm.dataframe.length first queued)
  let found := filepaths.filter (fun f => readable f)
  if found ≠ [] then
    match add_files sm found (found.map row_of) false with
    | some sm' => (some sm', true)
    | none => (none, false)
  else (none, false)

/-- One iteration of `FileBox.incoming_buffer_loop` on the FileBox state: the
body above applied to the shots model; the `AssertionError` case is caught by
the keep-running handler of the loop, leaving the state unchanged.  The loop
never reads `analysis_paused`. -/
def incomingStep (readable : String → Bool) (row_of : String → DfRow)
    (first : String) (queued : List String) (fb : FileBoxState) :
    FileBoxState × Bool :=
  match incomingStepShots readable row_of first queued fb.shots with
  | (some sm', pend) => ({ fb with shots := sm' }, pend)
  | (none, pend) => (fb, pend)

/-! ### The analysis worker subprocess (`analysis_subprocess.py`)

`AnalysisWorker.do_analysis` runs the user script with the process working
directory changed to the directory of the analysis script, inside a
`try/except/finally`.  The observable state is the working directory and the
trace of plot actions performed. -/

structure WorkerState where
  cwd : String
  actions : List String
deriving DecidableEq, Repr

/-- The state in which the user script starts executing inside `do_analysis`:
`pre_analysis_plot_actions` has run and the working directory has been changed
to the directory of the script (`os.chdir(os.path.dirname(self.filepath))`). -/
def scriptEntryState (script_dir : String) (s : WorkerState) : WorkerState :=
  { cwd := script_dir, actions := s.actions ++ ["pre_analysis_plot_actions"] }

/-- `AnalysisWorker.do_analysis`.  `script` models the `exec` of the user
code: `Except.ok` for a run that raises no exception, `Except.error` when one
propagates; the payload is the worker state afterwards (including any
`os.chdir` the script itself performed).  The `finally` block restores the
saved working directory and performs the post-analysis plot actions in both
cases; `True` is returned exactly when no exception was raised (the `except`
branch returns `False`). -/
def do_analysis (script_dir : String)
    (script : WorkerState → Except WorkerState WorkerState)
    (s : WorkerState) : Bool × WorkerState :=
  match script (scriptEntryState script_dir s) with
  | .ok s' =>
      (true, { s' with cwd := s.cwd,
                       actions := (s'.actions ++ ["post_analysis_plot_actions"]) })
  | .error s' =>
      (false, { s' with cwd := s.cwd,
                        actions := (s'.actions ++ ["post_analysis_plot_actions"]) })

/-! ### C10: the worker replies exactly once per task (`LyseWorker.parentloop`) -/

/-- A task received from the parent on `from_parent`. -/
inductive TaskMsg
  | quit
  | analyse (path : Option String)
  | other (name : String)
deriving DecidableEq, Repr

/-- The payload of a reply on `to_parent`: `lyse._updated_data` for analyse
replies, a plain string for the invalid-task reply. -/
inductive ReplyPayload (δ : Type)
  | data (d : δ)
  | text (msg : String)
deriving DecidableEq, Repr

/-- One iteration of `LyseWorker.parentloop`: `success` is the value
`AnalysisWorker.do_analysis` returned, `updated` the value of
`lyse._updated_data` after the run.  Returns the replies put on `to_parent`
and whether the worker shut down (`self.quit()` sends nothing). -/
def parentloopStep (δ : Type) (success : Bool) (updated : δ) :
    TaskMsg → List (String × ReplyPayload δ) × Bool
  | .quit => ([], true)
  | .analyse _ =>
      (if success then [("done", ReplyPayload.data updated)]
       else [("error", ReplyPayload.data updated)], false)
  | .other name =>
      ([("error", ReplyPayload.text ("invalid task " ++ name))], false)

/-! ### Column-level embedding of `DataFrameModel` (dynamic schema)

`update_row` keeps the Qt model columns synchronised with the dataframe
columns: `column_names` maps Qt column index to name, `column_indices` is its
inverse, `columns_visible` tracks visibility by index and
`deleted_columns_visible` remembers the visibility of removed columns by
name.  Column 0 is the status column (dict key the string `__status`),
column 1 the filepath column (key `('filepath', '')`, padded with empty
strings as the multiindex grows). -/

/-- A column name: the special string key of the status column, or a tuple
name as in the dataframe multiindex. -/
inductive ColName
  | status
  | tuple (parts : List String)
deriving DecidableEq, Repr

/-- Lexicographic comparison of string tuples, as `sorted()` orders them. -/
def lexLe : List String → List String → Bool
  | [], _ => true
  | _ :: _, [] => false
  | x :: xs, y :: ys =>
      match compare x y with
      | .lt => true
      | .eq => lexLe xs ys
      | .gt => false

/-- The order `sorted(new_column_names)` uses.  Only tuple names are ever
sorted (a new column always comes from the dataframe multiindex); the status
key is ordered first for totality. -/
def colLe (a b : ColName) : Bool :=
  match a, b with
  | .status, _ => true
  | .tuple _, .status => false
  | .tuple x, .tuple y => lexLe x y

/-- The column-level state of `DataFrameModel`: the header names of the Qt
model columns in column order, and the four bookkeeping dicts. -/
structure ColState where
  qt_columns : List ColName
  column_names : List (Nat × ColName)
  column_indices : List (ColName × Nat)
  columns_visible : List (Nat × Bool)
  deleted_columns_visible : List (ColName × Bool)
deriving DecidableEq, Repr

/-- The column state as initialised in `DataFrameModel.__init__`. -/
def initialColState : ColState :=
  { qt_columns := [ColName.status, ColName.tuple ["filepath", ""]]
    column_names := [(0, ColName.status), (1, ColName.tuple ["filepath", ""])]
    column_indices := [(ColName.status, 0), (ColName.tuple ["filepath", ""], 1)]
    columns_visible := [(0, true), (1, true)]
    deleted_columns_visible := [] }

/-- The new-column block of `update_row`: `insertColumns` at the end of the
model, then per new column (in sorted order) the header item and the
`column_names` / `column_indices` / `columns_visible` entries; a column seen
before gets its remembered visibility back, a brand new one is visible by
default (`setColumnHidden` touches only the view). -/
def insertNewColumns (s : ColState) (new_column_names : List ColName) :
    ColState :=
  let start := s.qt_columns.length
  { s with
    qt_columns := s.qt_columns ++ new_column_names
    column_names := (new_column_names.enum.foldl
      (fun m p => dictInsert m (start + p.1) p.2) s.column_names)
    column_indices := (new_column_names.enum.foldl
      (fun m p => dictInsert m p.2 (start + p.1)) s.column_indices)
    columns_visible := (new_column_names.enum.foldl
      (fun m p => dictInsert m (start + p.1)
        ((Dict.find s.deleted_columns_visible p.2).getD true))
      s.columns_visible) }

/-- One iteration of the removal loop of `update_row`:
`self._model.removeColumn(column_number)` (positional, shifting the columns
after it), remember the visibility under the column name, then
`del self.column_names[column_number]` and
`del self.columns_visible[column_number]`.  (The two lookups cannot fail in
Python while the maps are consistent; a failed lookup is embedded as skipping
the remember step.) -/
def removeColumnStep (s : ColState) (column_number : Nat) : ColState :=
  { s with
    qt_columns := s.qt_columns.eraseIdx column_number
    column_names := eraseKey s.column_names column_number
    columns_visible := eraseKey s.columns_visible column_number
    deleted_columns_visible :=
      (match Dict.find s.column_names column_number,
             Dict.find s.columns_visible column_number with
       | some name, some vis => dictInsert s.deleted_columns_visible name vis
       | _, _ => s.deleted_columns_visible) }

/-- The schema part of `DataFrameModel.update_row`: create model columns for
dataframe columns that have none yet (sorted, appended at the end), remove
model columns whose dataframe field disappeared - never the columns of
`column_names[COL_STATUS]` and `column_names[COL_FILEPATH]` - in reverse
index order, and if any column was removed, renumber `column_names` /
`columns_visible` and rebuild `column_indices` as the inverse of
`column_names`.  (`filterMap` embeds the index list comprehension: the
`column_indices[name]` lookup cannot fail while the two maps are inverse,
which the invariant below guarantees.) -/
def update_row_columns (dfCols : List ColName) (s : ColState) : ColState :=
  let new_column_names := List.insertionSort (fun a b => colLe a b = true)
    ((dedupFirst dfCols).filter
      (fun c => decide (c ∉ s.column_names.map Prod.snd)))
  let s₁ := insertNewColumns s new_column_names
  let defunct_column_names :=
    (dedupFirst (s₁.column_names.map Prod.snd)).filter
      (fun c => decide (c ∉ dfCols ∧
        some c ≠ Dict.find s₁.column_names 0 ∧
        some c ≠ Dict.find s₁.column_names 1))
  let defunct_column_indices := defunct_column_names.filterMap
    (fun c => Dict.find s₁.column_indices c)
  let s₂ := ((List.insertionSort (fun a b : Nat => a ≤ b)
      defunct_column_indices).reverse).foldl removeColumnStep s₁
  if defunct_column_indices ≠ [] then
    let sorted_names := List.insertionSort
      (fun p q : Nat × ColName => p.1 ≤ q.1) s₂.column_names
    let sorted_vis := List.insertionSort
      (fun p q : Nat × Bool => p.1 ≤ q.1) s₂.columns_visible
    { s₂ with
      column_names := (sorted_names.enum.map (fun p => (p.1, p.2.2)))
      columns_visible := (sorted_vis.enum.map (fun p => (p.1, p.2.2)))
      column_indices := (sorted_names.enum.map (fun p => (p.2.2, p.1))) }
  else s₂

/-- The invariant tying the column bookkeeping together: `column_names` is
exactly the indexing of the Qt header columns, `column_indices` its inverse,
the header names are distinct, and columns 0 and 1 are the status and
filepath columns. -/
def ColInv (fp : ColName) (s : ColState) : Prop :=
  s.column_names = s.qt_columns.enum ∧
  s.column_indices = s.column_names.map (fun p => (p.2, p.1)) ∧
  s.qt_columns.Nodup ∧
  Dict.find s.column_names 0 = some ColName.status ∧
  Dict.find s.column_names 1 = some fp

/-! ### Theorems -/

theorem dedupFirst_sublist {α : Type} [DecidableEq α] (l : List α) :
    (dedupFirst l).Sublist l := by
  induction l using dedupFirst.induct with
  | case1 => simp [dedupFirst]
  | case2 x xs ih =>
      rw [dedupFirst]
      exact (ih.trans (List.filter_sublist xs)).cons₂ x

theorem mem_dedupFirst {α : Type} [DecidableEq α] (a : α) (l : List α) :
    a ∈ dedupFirst l ↔ a ∈ l := by
  induction l using dedupFirst.induct with
  | case1 => simp [dedupFirst]
  | case2 x xs ih =>
      rw [dedupFirst]
      by_cases hax : a = x
      · subst hax; simp
      · simp only [List.mem_cons, ih, List.mem_filter]
        simp [hax]

theorem dedupFirst_nodup {α : Type} [DecidableEq α] (l : List α) :
    (dedupFirst l).Nodup := by
  induction l using dedupFirst.induct with
  | case1 => simp [dedupFirst]
  | case2 x xs ih =>
      rw [dedupFirst]
      refine List.nodup_cons.2 ⟨?_, ih⟩
      intro hmem
      rcases (List.mem_filter.1 ((mem_dedupFirst x _).1 hmem)) with ⟨-, hne⟩
      simp at hne

theorem drainBatch_eq_append_take (b : Nat) (queued acc : List String) :
    ∃ m, drainBatch b queued acc = acc ++ queued.take m := by
  induction queued generalizing acc with
  | nil => exact ⟨0, by simp [drainBatch]⟩
  | cons f qs ih =>
      by_cases h : b ≤ (acc ++ [f]).length
      · refine ⟨1, ?_⟩
        rw [drainBatch, if_pos h]
        simp
      · rcases ih (acc ++ [f]) with ⟨m, hm⟩
        refine ⟨m + 1, ?_⟩
        rw [drainBatch, if_neg h, hm, List.take_succ_cons, List.append_assoc,
          List.singleton_append]

theorem drainBatch_length_le (b : Nat) (queued acc : List String) :
    (drainBatch b queued acc).length ≤ max b (acc.length + 1) := by
  induction queued generalizing acc with
  | nil =>
      rw [drainBatch]
      omega
  | cons f qs ih =>
      by_cases h : b ≤ (acc ++ [f]).length
      · rw [drainBatch, if_pos h]
        simp only [List.length_append, List.length_singleton]
        omega
      · rw [drainBatch, if_neg h]
        have hih := ih (acc ++ [f])
        simp only [List.length_append, List.length_singleton] at hih h
        omega

/-- C5 (counterexample): with an empty dataframe the batch-size bound is
`0 // 3 + 1 = 1`, yet a batch of two filepaths is collected: the size check
only runs after a filepath has already been appended. -/
theorem c5_batch_bound_counterexample :
    ¬ ((incomingBatch 0 "a" ["b"]).length ≤ 0 / 3 + 1) := by decide

/-- C5 (amended): each batch drained by `incoming_buffer_loop` consists of the
blocking-get filepath followed by a prefix of the queue; it holds at least one
filepath, and at most `max (len(dataframe) // 3 + 1) 2` filepaths, where the
bound is computed from the dataframe length at the start of the batch.  The
claimed bound `len(dataframe) // 3 + 1` itself only holds once the dataframe
has at least 3 rows. -/
theorem c5_batch_bounds (df_len : Nat) (first : String) (queued : List String) :
    (∃ m, incomingBatch df_len first queued = first :: queued.take m) ∧
    1 ≤ (incomingBatch df_len first queued).length ∧
    (incomingBatch df_len first queued).length ≤ max (df_len / 3 + 1) 2 ∧
    (3 ≤ df_len →
      (incomingBatch df_len first queued).length ≤ df_len / 3 + 1) := by
  refine ⟨?_, ?_, ?_, ?_⟩
  · rcases drainBatch_eq_append_take (df_len / 3 + 1) queued [first] with ⟨m, hm⟩
    exact ⟨m, by simpa using hm⟩
  · rcases drainBatch_eq_append_take (df_len / 3 + 1) queued [first] with ⟨m, hm⟩
    rw [incomingBatch, hm]
    simp
  · have h := drainBatch_length_le (df_len / 3 + 1) queued [first]
    simp only [List.length_singleton] at h
    exact h
  · intro h3
    have h := drainBatch_length_le (df_len / 3 + 1) queued [first]
    simp only [List.length_singleton] at h
    rw [incomingBatch]
    have hb : 2 ≤ df_len / 3 + 1 := by omega
    omega

/-! ### Lemmas for the row-level claims -/

theorem find?_some_first {α : Type} (p : α → Bool) :
    ∀ (l : List α) (a : α), l.find? p = some a →
      ∃ i, ∃ hi : i < l.length, l[i] = a ∧ p a = true ∧
        ∀ j (hj : j < l.length), j < i → p (l[j]) = false := by
  intro l
  induction l with
  | nil => intro a h; simp [List.find?] at h
  | cons b t ih =>
      intro a h
      cases hpb : p b with
      | true =>
          rw [List.find?_cons_of_pos _ hpb] at h
          injection h with hba
          subst hba
          refine ⟨0, by simp, by simp, hpb, ?_⟩
          intro j hj hj0; omega
      | false =>
          rw [List.find?_cons_of_neg _ (by simp [hpb])] at h
          rcases ih a h with ⟨i, hi, hget, hpa, hprev⟩
          refine ⟨i + 1, by simpa using Nat.succ_lt_succ hi, by simpa using hget,
            hpa, ?_⟩
          intro j hj hji
          cases j with
          | zero => simpa using hpb
          | succ k =>
              have hk : k < t.length := by simp at hj; omega
              have := hprev k hk (by omega)
              simpa using this

theorem getElem?_enum_map {α β : Type} (g : Nat × α → β) (l : List α) (i : Nat) :
    (l.enum.map g)[i]? = (l[i]?).map (fun a => g (i, a)) := by
  rw [List.getElem?_map, List.getElem?_enum]
  cases l[i]? <;> rfl

/-! ### C1: single-shot dispatch order and the not-done reset -/

/-- C1 (counterexample): a shot marked as deleted off disk whose file is still
missing is skipped by `mark_selection_not_done` (`continue`), so marking it
not done does not reset its status percent to 0 - it stays 100. -/
theorem c1_reset_counterexample :
    ((mark_selection_not_done
        { dataframe := [{ filepath := "a", fields := [] }]
          qt_rows := [{ filepath := "a", status_percent := 100,
                        deleted_off_disk := true }]
          row_number_by_filepath := [("a", 0)]
          previous_n_digits := 1 }
        (fun _ => false) [0]).qt_rows.map QtRow.status_percent) ≠ [0] := by
  decide

/-- C1 (amended): the analysis loop dispatches the first shot in row order
whose status percent is not 100 (`get_first_incomplete` returns the first such
row, every row before it having percent 100, and returns nothing only when
every row has percent 100; an iteration of the analysis loop then dispatches
that shot), and marking a selected shot not done resets its status percent to
0 - except a shot marked deleted off disk whose file is still missing, which
is skipped and keeps its status percent. -/
theorem c1_first_incomplete_and_reset (s : ShotsModel) (e : String → Bool)
    (sel : List Nat) (fb : FileBoxState) (env : AnalysisEnv)
    (fuel k : Nat) (a : Bool) (f₀ : String) :
    (fb.analysis_paused = false → get_first_incomplete fb.shots = some f₀ →
      env.file_exists f₀ = true →
      SEvent.dispatched f₀ ∈ (analysisLoopInner env (fuel + 1) k a fb).2.1) ∧
    (∀ f, get_first_incomplete s = some f →
      ∃ i, ∃ hi : i < s.qt_rows.length,
        (s.qt_rows[i]).filepath = f ∧ (s.qt_rows[i]).status_percent ≠ 100 ∧
        ∀ j (hj : j < s.qt_rows.length), j < i →
          (s.qt_rows[j]).status_percent = 100) ∧
    (get_first_incomplete s = none ↔
      ∀ r ∈ s.qt_rows, r.status_percent = 100) ∧
    (∀ i, ∀ hi : i < s.qt_rows.length, i ∈ sel →
      ((mark_selection_not_done s e sel).qt_rows[i]?).map QtRow.status_percent =
        some (if (s.qt_rows[i]).deleted_off_disk = true ∧
                 e ((s.qt_rows[i]).filepath) = false
              then (s.qt_rows[i]).status_percent else 0)) := by
  refine ⟨?_, ?_, ?_, ?_⟩
  · intro hp hf he
    have hds : do_singleshot_analysis env.file_exists
        (env.singleshot_msgs f₀) f₀ fb =
        (processSingleshotMsgs env.file_exists f₀ (env.singleshot_msgs f₀) fb,
          [SEvent.dispatched f₀]) := by
      unfold do_singleshot_analysis
      rw [if_neg]
      simp [he]
    rw [analysisLoopInner, if_pos hp, hf]
    dsimp only
    rw [hds]
    dsimp only
    split <;> simp
  · intro f hf
    unfold get_first_incomplete at hf
    rcases Option.map_eq_some'.1 hf with ⟨r, hfind, hfp⟩
    rcases find?_some_first _ _ _ hfind with ⟨i, hi, hget, hpa, hprev⟩
    refine ⟨i, hi, by rw [hget, hfp], ?_, ?_⟩
    · rw [hget]; exact of_decide_eq_true hpa
    · intro j hj hji
      have := hprev j hj hji
      simpa using this
  · unfold get_first_incomplete
    rw [Option.map_eq_none']
    rw [List.find?_eq_none]
    constructor
    · intro h r hr
      have := h r hr
      simpa using this
    · intro h r hr
      simpa using h r hr
  · intro i hi hisel
    unfold mark_selection_not_done
    rw [getElem?_enum_map, List.getElem?_eq_getElem hi]
    simp only [Option.map_some', Option.some_inj, if_pos hisel]
    cases hd : (s.qt_rows[i]).deleted_off_disk with
    | false => simp [hd]
    | true =>
        cases he : e ((s.qt_rows[i]).filepath) with
        | false => simp [hd, he]
        | true => simp [hd, he]

/-! ### C9: the duplicate-filepath guard in `add_files`

`add_files` intends to skip duplicates and drop their rows, but for a
filepath repeated within one call the second occurrence drops every matching
row of `new_row_data` - including the row kept for the first occurrence - and
the `assert len(new_row_data) == len(to_add)` then fails. -/

/-- C9 (code bug): calling `add_files` on an empty model with the same new
filepath twice (and its two dataframe rows) raises the assertion: the model
returns `none` instead of adding the shot once. -/
theorem c9_add_files_assert_failure :
    add_files initialShotsModel ["a", "a"]
      [{ filepath := "a", fields := [] }, { filepath := "a", fields := [] }]
      false = none := by decide

theorem map_listModify {α β : Type} (f : α → β) (g : α → α)
    (hfg : ∀ a, f (g a) = f a) :
    ∀ (n : Nat) (l : List α), (listModify n g l).map f = l.map f := by
  intro n l
  induction l generalizing n with
  | nil => cases n <;> rfl
  | cons a t ih =>
      cases n with
      | zero => simp [listModify, hfg]
      | succ m => simp [listModify, ih]

theorem length_listModify {α : Type} (g : α → α) :
    ∀ (n : Nat) (l : List α), (listModify n g l).length = l.length := by
  intro n l
  induction l generalizing n with
  | nil => cases n <;> rfl
  | cons a t ih =>
      cases n with
      | zero => simp [listModify]
      | succ m => simp [listModify, ih]

theorem removeIdxs_map {α β : Type} (sel : List Nat) (f : α → β) (l : List α) :
    (removeIdxs sel l).map f = removeIdxs sel (l.map f) := by
  unfold removeIdxs
  rw [List.enum_map, List.filter_map, List.map_map, List.map_map]
  rfl

theorem removeIdxs_sublist {α : Type} (sel : List Nat) (l : List α) :
    (removeIdxs sel l).Sublist l := by
  unfold removeIdxs
  have h₁ : (l.enum.filter (fun p => decide (p.1 ∉ sel))).Sublist l.enum :=
    List.filter_sublist _
  have h₂ := h₁.map Prod.snd
  rwa [List.enum_map_snd] at h₂

theorem dictInsert_fresh {α β : Type} [DecidableEq α] (m : List (α × β))
    (k : α) (v : β) (h : ∀ p ∈ m, p.1 ≠ k) :
    dictInsert m k v = m ++ [(k, v)] := by
  have hc : ¬ (m.any (fun p => decide (p.1 = k)) = true) := by
    rw [List.any_eq_true]
    rintro ⟨p, hp, hk⟩
    exact h p hp (by simpa using hk)
  unfold dictInsert
  rw [if_neg hc]

theorem foldl_dictInsert_fresh {α β : Type} [DecidableEq α] :
    ∀ (xs base : List (α × β)),
      (∀ q ∈ xs, ∀ p ∈ base, p.1 ≠ q.1) → (xs.map Prod.fst).Nodup →
      xs.foldl (fun m p => dictInsert m p.1 p.2) base = base ++ xs := by
  intro xs
  induction xs with
  | nil => intro base _ _; simp
  | cons x t ih =>
      intro base hfresh hnodup
      have hn := List.nodup_cons.1 (by simpa using hnodup :
        (x.1 :: t.map Prod.fst).Nodup)
      rw [List.foldl_cons,
        dictInsert_fresh base x.1 x.2
          (fun p hp => hfresh x (List.mem_cons_self _ _) p hp),
        ih (base ++ [x]) ?_ hn.2]
      · simp
      · intro q hq p hp
        rcases List.mem_append.1 hp with hpb | hpx
        · exact hfresh q (List.mem_cons_of_mem _ hq) p hpb
        · have hx : p = x := by simpa using hpx
          subst hx
          intro heq
          exact hn.1 (by rw [heq]; exact List.mem_map_of_mem Prod.fst hq)

theorem map_filepath_filter_ne (f : String) : ∀ (l : List DfRow),
    (l.filter (fun r => decide (r.filepath ≠ f))).map DfRow.filepath =
      (l.map DfRow.filepath).filter (fun s => decide (s ≠ f)) := by
  intro l
  induction l with
  | nil => rfl
  | cons r t ih =>
      by_cases h : r.filepath = f
      · rw [List.filter_cons_of_neg (by simp [h]), List.map_cons,
          List.filter_cons_of_neg (by simp [h])]
        exact ih
      · rw [List.filter_cons_of_pos (by simp [h]), List.map_cons, List.map_cons,
          List.filter_cons_of_pos (by simp [h]), ih]

theorem notMem_cons_pred (f : String) (D : List String) :
    (fun a => decide (a ∉ (f :: D))) =
      (fun a : String => decide (a ≠ f) && decide (a ∉ D)) := by
  funext a
  by_cases h1 : a = f <;> by_cases h2 : a ∈ D <;> simp [h1, h2]

theorem dedupNewFiles_spec :
    ∀ (fs keys to_add : List String) (nrd : List DfRow) (D : List String),
      nrd.map DfRow.filepath =
        to_add.filter (fun g => decide (g ∉ D)) ++
          fs.filter (fun g => decide (g ∉ D)) →
      (∀ g ∈ D, g ∈ keys ∨ g ∈ to_add) →
      to_add.Nodup → (∀ f ∈ to_add, f ∉ keys) →
      ∃ D' : List String,
        (dedupNewFiles keys fs to_add nrd).2.map DfRow.filepath =
          (dedupNewFiles keys fs to_add nrd).1.filter
            (fun g => decide (g ∉ D')) ∧
        (dedupNewFiles keys fs to_add nrd).1.Nodup ∧
        ∀ f ∈ (dedupNewFiles keys fs to_add nrd).1, f ∉ keys := by
  intro fs
  induction fs with
  | nil =>
      intro keys to_add nrd D hmap hD hnd hk
      refine ⟨D, ?_, hnd, hk⟩
      simpa using hmap
  | cons f ft ih =>
      intro keys to_add nrd D hmap hD hnd hk
      by_cases hdup : f ∈ keys ∨ f ∈ to_add
      · rw [dedupNewFiles, if_pos hdup]
        apply ih keys to_add (nrd.filter fun r => decide (r.filepath ≠ f))
          (f :: D) ?_ ?_ hnd hk
        · rw [map_filepath_filter_ne, hmap, List.filter_append,
            List.filter_filter, List.filter_filter, notMem_cons_pred,
            List.filter_cons_of_neg (by simp)]
        · intro g hg
          rcases List.mem_cons.1 hg with hgf | hgD
          · exact hgf ▸ hdup
          · exact hD g hgD
      · push_neg at hdup
        rw [dedupNewFiles, if_neg (by simpa using hdup)]
        have hfD : f ∉ D := by
          intro hfd
          rcases hD f hfd with h | h
          · exact hdup.1 h
          · exact hdup.2 h
        apply ih keys (to_add ++ [f]) nrd D ?_ ?_ ?_ ?_
        · rw [hmap, List.filter_append,
            List.filter_cons_of_pos (by simpa using hfD)]
          simp [hfD]
        · intro g hg
          rcases hD g hg with h | h
          · exact Or.inl h
          · exact Or.inr (List.mem_append_left _ h)
        · rw [List.nodup_append]
          refine ⟨hnd, List.nodup_singleton f, ?_⟩
          intro a ha hf
          have haf : a = f := by simpa using hf
          exact hdup.2 (haf ▸ ha)
        · intro g hg
          rcases List.mem_append.1 hg with h | h
          · exact hk g h
          · have : g = f := by simpa using h
            exact this ▸ hdup.1

/-- The loop of `renumber_rows` from `a` on, as a fold of dict assignments,
computes the full filepath-to-row map when the base dict is the map for the
first `a` rows. -/
theorem renumber_fold_general (l : List QtRow) (a : Nat)
    (hnodup : (l.map QtRow.filepath).Nodup) (ha : a ≤ l.length)
    (base : List (String × Nat))
    (hbase : base = (l.take a).enum.map (fun p => (p.2.filepath, p.1))) :
    ((l.drop a).enum.map (fun p => (p.2.filepath, a + p.1))).foldl
        (fun m p => dictInsert m p.1 p.2) base =
      l.enum.map (fun p => (p.2.filepath, p.1)) := by
  have hsplit : (l.take a).map QtRow.filepath ++ (l.drop a).map QtRow.filepath
      = l.map QtRow.filepath := by
    rw [← List.map_append, List.take_append_drop]
  have hnd : ((l.take a).map QtRow.filepath ++
      (l.drop a).map QtRow.filepath).Nodup := by rw [hsplit]; exact hnodup
  rw [List.nodup_append] at hnd
  have hkeys_base : base.map Prod.fst = (l.take a).map QtRow.filepath := by
    rw [hbase, List.map_map]
    have : (Prod.fst ∘ fun p : Nat × QtRow => (p.2.filepath, p.1)) =
        (QtRow.filepath ∘ Prod.snd) := rfl
    rw [this, ← List.map_map, List.enum_map_snd]
  have hkeys_upd :
      ((l.drop a).enum.map (fun p => (p.2.filepath, a + p.1))).map Prod.fst =
        (l.drop a).map QtRow.filepath := by
    rw [List.map_map]
    have : (Prod.fst ∘ fun p : Nat × QtRow => (p.2.filepath, a + p.1)) =
        (QtRow.filepath ∘ Prod.snd) := rfl
    rw [this, ← List.map_map, List.enum_map_snd]
  rw [foldl_dictInsert_fresh _ base ?_ ?_]
  · rw [hbase]
    have hlen : (l.take a).length = a := by
      rw [List.length_take]
      omega
    conv_rhs => rw [← List.take_append_drop a l]
    rw [List.enum_append, List.map_append, hlen]
    congr 1
    rw [List.enumFrom_eq_map_enum, List.map_map]
    congr 1
    funext p
    simp [Nat.add_comm]
  · intro q hq p hp
    have hq1 : q.1 ∈ (l.drop a).map QtRow.filepath := by
      rw [← hkeys_upd]
      exact List.mem_map_of_mem Prod.fst hq
    have hp1 : p.1 ∈ (l.take a).map QtRow.filepath := by
      rw [← hkeys_base]
      exact List.mem_map_of_mem Prod.fst hp
    intro heq
    exact hnd.2.2 hp1 (heq ▸ hq1)
  · rw [hkeys_upd]
    exact hnd.2.1

theorem renumber_rows_dataframe (s : ShotsModel) (a : Nat) :
    (renumber_rows s a).dataframe = s.dataframe := rfl

theorem renumber_rows_qt_rows (s : ShotsModel) (a : Nat) :
    (renumber_rows s a).qt_rows = s.qt_rows := rfl

/-- After `renumber_rows`, `row_number_by_filepath` is the full
filepath-to-row-number map, provided the filepaths are distinct and the
existing dict (only consulted when `add_from` is nonzero) was the map for the
rows before `add_from`. -/
theorem renumber_rows_rowmap (s : ShotsModel) (a : Nat)
    (hnodup : (s.qt_rows.map QtRow.filepath).Nodup)
    (ha : a ≤ s.qt_rows.length)
    (hbase : a ≠ 0 → s.row_number_by_filepath =
      (s.qt_rows.take a).enum.map (fun p => (p.2.filepath, p.1))) :
    (renumber_rows s a).row_number_by_filepath =
      s.qt_rows.enum.map (fun p => (p.2.filepath, p.1)) := by
  unfold renumber_rows
  by_cases hdig : (toString s.qt_rows.length).length ≠ s.previous_n_digits
  · simp only [if_pos hdig, if_pos rfl]
    exact renumber_fold_general s.qt_rows 0 hnodup (Nat.zero_le _) [] (by simp)
  · simp only [if_neg hdig]
    by_cases ha0 : a = 0
    · subst ha0
      simp only [if_pos rfl]
      exact renumber_fold_general s.qt_rows 0 hnodup (Nat.zero_le _) [] (by simp)
    · simp only [if_neg ha0]
      exact renumber_fold_general s.qt_rows a hnodup ha _ (hbase ha0)

theorem rowmap_keys (s : ShotsModel)
    (h3 : s.row_number_by_filepath =
      s.qt_rows.enum.map (fun p => (p.2.filepath, p.1))) :
    s.row_number_by_filepath.map Prod.fst = s.qt_rows.map QtRow.filepath := by
  rw [h3, List.map_map]
  have hcomp : (Prod.fst ∘ fun p : Nat × QtRow => (p.2.filepath, p.1)) =
      (QtRow.filepath ∘ Prod.snd) := rfl
  rw [hcomp, ← List.map_map, List.enum_map_snd]

/-- C7: starting from the initial model, the row alignment invariant - the
dataframe index is the position range `0..n-1`, Qt row `i` and dataframe row
`i` hold the same filepath, and `row_number_by_filepath` maps each filepath to
that shared row number - is preserved by `add_files` (when it returns, with
`new_row_data` rows matching the given filepaths), by `remove_selection` and
by `update_row`. -/
theorem c7_row_alignment (s : ShotsModel) (hinv : rowsInv s) :
    rowsInv initialShotsModel ∧
    (∀ filepaths new_row_data done s',
      new_row_data.map DfRow.filepath = filepaths →
      add_files s filepaths new_row_data done = some s' → rowsInv s') ∧
    (∀ selected, rowsInv (remove_selection s selected)) ∧
    (∀ filepath upd, rowsInv (update_row s filepath upd)) := by
  obtain ⟨h1, h2, h3⟩ := hinv
  refine ⟨⟨rfl, List.nodup_nil, rfl⟩, ?_, ?_, ?_⟩
  · -- add_files
    intro fps nrd done s' hmap hsome
    unfold add_files at hsome
    dsimp only at hsome
    split at hsome
    case isFalse => cases hsome
    case isTrue hlen =>
    injection hsome with hs'
    subst hs'
    have hkeys := rowmap_keys s h3
    obtain ⟨D', hD'map, hD'nodup, hD'keys⟩ :=
      dedupNewFiles_spec fps (s.row_number_by_filepath.map Prod.fst) [] nrd []
        (by simpa using hmap) (by simp) List.nodup_nil (by simp)
    set p := dedupNewFiles (s.row_number_by_filepath.map Prod.fst) fps [] nrd
      with hp
    have hfpp : p.2.map DfRow.filepath = p.1 := by
      have hflen : (p.1.filter (fun g => decide (g ∉ D'))).length = p.1.length := by
        rw [← hD'map, List.length_map, hlen]
      have heq : p.1.filter (fun g => decide (g ∉ D')) = p.1 :=
        (List.Sublist.length_eq (List.filter_sublist _)).mp hflen
      rw [hD'map, heq]
    have hq1map : (p.1.map (fun f => new_row f done)).map QtRow.filepath = p.1 := by
      rw [List.map_map]
      have hid : (QtRow.filepath ∘ fun f => new_row f done) = id := rfl
      rw [hid, List.map_id]
    have hnodup₁ :
        ((s.qt_rows ++ p.1.map (fun f => new_row f done)).map QtRow.filepath).Nodup := by
      rw [List.map_append, hq1map, List.nodup_append]
      refine ⟨h2, hD'nodup, ?_⟩
      intro a ha hb
      exact hD'keys a hb (hkeys ▸ ha)
    refine ⟨?_, ?_, ?_⟩
    · rw [renumber_rows_dataframe, renumber_rows_qt_rows]
      show (s.dataframe ++ p.2).map DfRow.filepath = _
      rw [List.map_append, List.map_append, h1, hfpp, hq1map]
    · rw [renumber_rows_qt_rows]
      exact hnodup₁
    · rw [renumber_rows_qt_rows]
      have hlen_a :
          (s.qt_rows ++ p.1.map (fun f => new_row f done)).length - p.1.length =
            s.qt_rows.length := by
        rw [List.length_append, List.length_map]
        omega
      rw [show ({ s with
            dataframe := s.dataframe ++ p.2,
            qt_rows := s.qt_rows ++ p.1.map (fun f => new_row f done) }
            : ShotsModel).qt_rows.length - p.1.length =
          s.qt_rows.length from hlen_a]
      apply renumber_rows_rowmap _ _ hnodup₁
      · show s.qt_rows.length ≤ (s.qt_rows ++ _).length
        rw [List.length_append]
        omega
      · intro _
        show s.row_number_by_filepath = _
        rw [show (s.qt_rows ++ p.1.map (fun f => new_row f done)).take
            s.qt_rows.length = s.qt_rows from List.take_left _ _]
        exact h3
  · -- remove_selection
    intro sel
    unfold remove_selection
    split
    case isTrue => exact ⟨h1, h2, h3⟩
    case isFalse =>
    have hnodup₁ : ((removeIdxs sel s.qt_rows).map QtRow.filepath).Nodup := by
      rw [removeIdxs_map]
      exact h2.sublist (removeIdxs_sublist sel _)
    refine ⟨?_, ?_, ?_⟩
    · rw [renumber_rows_dataframe, renumber_rows_qt_rows]
      show (removeIdxs sel s.dataframe).map _ = (removeIdxs sel s.qt_rows).map _
      rw [removeIdxs_map, removeIdxs_map, h1]
    · rw [renumber_rows_qt_rows]
      exact hnodup₁
    · rw [renumber_rows_qt_rows]
      exact renumber_rows_rowmap _ 0 hnodup₁ (Nat.zero_le _)
        (fun h => absurd rfl h)
  · -- update_row
    intro fp upd
    unfold update_row
    split
    · exact ⟨h1, h2, h3⟩
    · next row_number heq =>
        refine ⟨?_, h2, h3⟩
        have hmod := map_listModify DfRow.filepath
          (fun r => { r with
            fields := (upd.foldl (fun fs q => dictInsert fs q.1 q.2) r.fields) })
          (fun r => rfl) row_number s.dataframe
        exact hmod.trans h1

/-- C7 (witness): adding one shot to the empty model preserves the row
alignment invariant. -/
theorem c7_row_alignment_witness :
    rowsInv { dataframe := [{ filepath := "a", fields := [] }]
              qt_rows := [{ filepath := "a", status_percent := 0,
                            deleted_off_disk := false }]
              row_number_by_filepath := [("a", 0)]
              previous_n_digits := 1 } :=
  (c7_row_alignment initialShotsModel ⟨rfl, List.nodup_nil, rfl⟩).2.1
    ["a"] [{ filepath := "a", fields := [] }] false _ rfl (by decide)

/-! ### Skeleton-preservation lemmas for the analysis reply loops -/

theorem update_row_qt_rows (s : ShotsModel) (f : String)
    (u : List ((String × String) × String)) :
    (update_row s f u).qt_rows = s.qt_rows := by
  unfold update_row; split <;> rfl

theorem update_row_rowmap (s : ShotsModel) (f : String)
    (u : List ((String × String) × String)) :
    (update_row s f u).row_number_by_filepath = s.row_number_by_filepath := by
  unfold update_row; split <;> rfl

theorem update_row_df_filepaths (s : ShotsModel) (f : String)
    (u : List ((String × String) × String)) :
    (update_row s f u).dataframe.map DfRow.filepath =
      s.dataframe.map DfRow.filepath := by
  unfold update_row; split
  · rfl
  · exact map_listModify DfRow.filepath
      (fun r => { r with
        fields := (u.foldl (fun fs q => dictInsert fs q.1 q.2) r.fields) })
      (fun r => rfl) _ _

theorem apply_updated_data_qt_rows :
    ∀ (upd : List (String × List ((String × String) × String)))
      (sm : ShotsModel), (apply_updated_data sm upd).qt_rows = sm.qt_rows := by
  intro upd
  induction upd with
  | nil => intro sm; rfl
  | cons q t ih =>
      intro sm
      show (apply_updated_data (update_row sm q.1 q.2) t).qt_rows = _
      rw [ih, update_row_qt_rows]

theorem apply_updated_data_rowmap :
    ∀ (upd : List (String × List ((String × String) × String)))
      (sm : ShotsModel),
      (apply_updated_data sm upd).row_number_by_filepath =
        sm.row_number_by_filepath := by
  intro upd
  induction upd with
  | nil => intro sm; rfl
  | cons q t ih =>
      intro sm
      show (apply_updated_data (update_row sm q.1 q.2) t).row_number_by_filepath = _
      rw [ih, update_row_rowmap]

theorem apply_updated_data_df_filepaths :
    ∀ (upd : List (String × List ((String × String) × String)))
      (sm : ShotsModel),
      (apply_updated_data sm upd).dataframe.map DfRow.filepath =
        sm.dataframe.map DfRow.filepath := by
  intro upd
  induction upd with
  | nil => intro sm; rfl
  | cons q t ih =>
      intro sm
      show (apply_updated_data (update_row sm q.1 q.2) t).dataframe.map _ = _
      rw [ih, update_row_df_filepaths]

theorem set_status_percent_dataframe (s : ShotsModel) (f : String) (pct : Nat) :
    (set_status_percent s f pct).dataframe = s.dataframe := by
  unfold set_status_percent; split <;> rfl

theorem set_status_percent_rowmap (s : ShotsModel) (f : String) (pct : Nat) :
    (set_status_percent s f pct).row_number_by_filepath =
      s.row_number_by_filepath := by
  unfold set_status_percent; split <;> rfl

theorem set_status_percent_flags (s : ShotsModel) (f : String) (pct : Nat) :
    (set_status_percent s f pct).qt_rows.map QtRow.deleted_off_disk =
      s.qt_rows.map QtRow.deleted_off_disk := by
  unfold set_status_percent; split
  · rfl
  · exact map_listModify QtRow.deleted_off_disk
      (fun r => { r with status_percent := pct }) (fun r => rfl) _ _

theorem getElem?_map_eq_of_map_eq {α β : Type} (l l' : List α) (f : α → β)
    (h : l'.map f = l.map f) (i : Nat) :
    (l'[i]?).map f = (l[i]?).map f := by
  rw [← List.getElem?_map, ← List.getElem?_map, h]

theorem getElem?_listModify {α : Type} (g : α → α) :
    ∀ (l : List α) (n i : Nat),
      (listModify n g l)[i]? = if i = n then (l[i]?).map g else l[i]? := by
  intro l
  induction l with
  | nil => intro n i; cases n <;> simp [listModify]
  | cons a t ih =>
      intro n i
      cases n with
      | zero =>
          cases i with
          | zero => simp [listModify]
          | succ j => simp [listModify]
      | succ m =>
          cases i with
          | zero => simp [listModify]
          | succ j =>
              simp only [listModify, List.getElem?_cons_succ, ih m j]
              by_cases h : j = m
              · simp [h]
              · simp [h]

theorem singleshotRowUpdates_flags (filepath : String) (m : Msg)
    (sm : ShotsModel) :
    (singleshotRowUpdates filepath m sm).qt_rows.map QtRow.deleted_off_disk =
      sm.qt_rows.map QtRow.deleted_off_disk := by
  unfold singleshotRowUpdates; split
  · rw [set_status_percent_flags, apply_updated_data_qt_rows]
  · rw [apply_updated_data_qt_rows]

theorem singleshotRowUpdates_rowmap (filepath : String) (m : Msg)
    (sm : ShotsModel) :
    (singleshotRowUpdates filepath m sm).row_number_by_filepath =
      sm.row_number_by_filepath := by
  unfold singleshotRowUpdates; split
  · rw [set_status_percent_rowmap, apply_updated_data_rowmap]
  · rw [apply_updated_data_rowmap]

theorem singleshotRowUpdates_df_filepaths (filepath : String) (m : Msg)
    (sm : ShotsModel) :
    (singleshotRowUpdates filepath m sm).dataframe.map DfRow.filepath =
      sm.dataframe.map DfRow.filepath := by
  unfold singleshotRowUpdates; split
  · rw [set_status_percent_dataframe, apply_updated_data_df_filepaths]
  · rw [apply_updated_data_df_filepaths]

/-! ### C4: error handling in single-shot analysis -/

/-- C4: when a singleshot reply loop receives an `error` signal for a shot
that is in the table and not already marked deleted: if the shot file still
exists, analysis is paused (and no shot gets marked deleted by this reply);
if the file no longer exists, the shot is marked deleted off disk with status
percent 100 and the paused flag is left as it was. -/
theorem c4_singleshot_error_recovery (e : String → Bool) (filepath : String)
    (m : Msg) (ms : List Msg) (fb : FileBoxState) (n : Nat)
    (hsig : m.signal = Signal.error)
    (hfind : Dict.find fb.shots.row_number_by_filepath filepath = some n)
    (hmem : filepath ∈ fb.shots.dataframe.map DfRow.filepath)
    (hrow : (fb.shots.qt_rows[n]?).map QtRow.deleted_off_disk = some false) :
    (e filepath = true →
      (processSingleshotMsgs e filepath (m :: ms) fb).analysis_paused = true ∧
      (processSingleshotMsgs e filepath (m :: ms) fb).shots.qt_rows.map
          QtRow.deleted_off_disk =
        fb.shots.qt_rows.map QtRow.deleted_off_disk) ∧
    (e filepath = false →
      (processSingleshotMsgs e filepath (m :: ms) fb).analysis_paused =
        fb.analysis_paused ∧
      ((processSingleshotMsgs e filepath (m :: ms) fb).shots.qt_rows[n]?).map
          (fun r => (r.status_percent, r.deleted_off_disk)) =
        some (100, true)) := by
  have hupd_flags := singleshotRowUpdates_flags filepath m fb.shots
  have hupd_rowmap := singleshotRowUpdates_rowmap filepath m fb.shots
  have hupd_df := singleshotRowUpdates_df_filepaths filepath m fb.shots
  rw [processSingleshotMsgs, hsig]
  cases he : e filepath with
  | true =>
      rw [if_neg (by simp [he])]
      refine ⟨fun _ => ⟨rfl, hupd_flags⟩, fun hc => absurd hc (by simp [he])⟩
  | false =>
      rw [if_pos rfl]
      refine ⟨fun hc => absurd hc (by simp), fun _ => ⟨rfl, ?_⟩⟩
      show ((mark_as_deleted_off_disk
        (singleshotRowUpdates filepath m fb.shots) filepath).qt_rows[n]?).map
          _ = _
      have hflag₂ : ((singleshotRowUpdates filepath m fb.shots).qt_rows[n]?).map
          QtRow.deleted_off_disk = some false :=
        (getElem?_map_eq_of_map_eq _ _ _ hupd_flags n).trans hrow
      obtain ⟨r, hr⟩ : ∃ r,
          (singleshotRowUpdates filepath m fb.shots).qt_rows[n]? = some r := by
        cases hq : (singleshotRowUpdates filepath m fb.shots).qt_rows[n]? with
        | none => rw [hq] at hflag₂; simp at hflag₂
        | some r => exact ⟨r, rfl⟩
      unfold mark_as_deleted_off_disk
      rw [if_pos (hupd_df ▸ hmem), hupd_rowmap, hfind]
      dsimp only
      rw [hflag₂]
      dsimp only
      rw [getElem?_listModify, if_pos rfl, hr]
      rfl

/-- C4 (witness): an `error` reply for a shot whose file is gone marks it
deleted with status percent 100. -/
theorem c4_singleshot_error_recovery_witness :
    ((processSingleshotMsgs (fun _ => false) "a"
        [{ signal := Signal.error, status_percent := none, updated_data := [] }]
        { shots := { dataframe := [{ filepath := "a", fields := [] }]
                     qt_rows := [{ filepath := "a", status_percent := 50,
                                   deleted_off_disk := false }]
                     row_number_by_filepath := [("a", 0)]
                     previous_n_digits := 1 }
          analysis_paused := false
          multishot_required := false }).shots.qt_rows[0]?).map
      (fun r => (r.status_percent, r.deleted_off_disk)) = some (100, true) :=
  ((c4_singleshot_error_recovery (fun _ => false) "a"
      { signal := Signal.error, status_percent := none, updated_data := [] } []
      { shots := { dataframe := [{ filepath := "a", fields := [] }]
                   qt_rows := [{ filepath := "a", status_percent := 50,
                                 deleted_off_disk := false }]
                   row_number_by_filepath := [("a", 0)]
                   previous_n_digits := 1 }
        analysis_paused := false
        multishot_required := false } 0 rfl (by decide) (by decide)
      (by decide)).2 rfl).2

/-! ### C3: when multishot analysis runs and when its flag is cleared -/

theorem processMultishotMsgs_flag (msgs : List Msg) :
    ∀ fb : FileBoxState, fb.multishot_required = true →
      (∀ x ∈ msgs, x.signal ≠ Signal.done) →
      (processMultishotMsgs msgs fb).multishot_required = true := by
  induction msgs with
  | nil => intro fb h _; exact h
  | cons m ms ih =>
      intro fb h hnd
      rw [processMultishotMsgs]
      cases hs : m.signal with
      | done => exact absurd hs (hnd m (List.mem_cons_self _ _))
      | error => exact h
      | progress =>
          exact ih _ h (fun x hx => hnd x (List.mem_cons_of_mem _ hx))

/-- C3: (i) at the iteration where the analysis loop finds no incomplete shot
after having analysed at least one shot in the pass, it sets
`multishot_required` and leaves the loop; (ii) a pass whose inner loop ends
with `multishot_required` set runs multishot analysis; (iii) the flag is
cleared only by a `done` reply; (iv) an `error` reply pauses analysis and
leaves the flag unchanged; (v) hence a pass that runs after analysis resumes,
with the flag still set and no incomplete shot, runs multishot analysis
again. -/
theorem c3_multishot_after_pass (env : AnalysisEnv) (fuel k : Nat)
    (fb : FileBoxState) (m : Msg) (ms msgs : List Msg) :
    (fb.analysis_paused = false → get_first_incomplete fb.shots = none →
      (analysisLoopInner env (fuel + 1) k true fb).1.multishot_required =
        true) ∧
    ((analysisLoopInner env fuel 0 false fb).1.multishot_required = true →
      SEvent.multishot ∈ (analysisPass env fuel fb).2) ∧
    (fb.multishot_required = true → (∀ x ∈ msgs, x.signal ≠ Signal.done) →
      (processMultishotMsgs msgs fb).multishot_required = true) ∧
    (m.signal = Signal.error →
      (processMultishotMsgs (m :: ms) fb).multishot_required =
        fb.multishot_required ∧
      (processMultishotMsgs (m :: ms) fb).analysis_paused = true) ∧
    (fb.multishot_required = true → fb.analysis_paused = false →
      get_first_incomplete fb.shots = none →
      SEvent.multishot ∈ (analysisPass env (fuel + 1) fb).2) := by
  refine ⟨?_, ?_, processMultishotMsgs_flag msgs fb, ?_, ?_⟩
  · intro hpause hnone
    rw [analysisLoopInner, if_pos hpause, hnone]
    simp
  · intro hflag
    unfold analysisPass
    dsimp only
    rw [if_pos hflag]
    simp
  · intro hsig
    rw [processMultishotMsgs, hsig]
    exact ⟨rfl, rfl⟩
  · intro hflag hpause hnone
    have hinner : analysisLoopInner env (fuel + 1) 0 false fb = (fb, [], 0) := by
      rw [analysisLoopInner, if_pos hpause, hnone]
      simp
    unfold analysisPass
    dsimp only
    rw [hinner]
    dsimp only
    rw [if_pos hflag]
    simp

/-- C3 (witness): with the flag set, analysis not paused and nothing left to
analyse, the next pass runs multishot analysis. -/
theorem c3_multishot_after_pass_witness :
    SEvent.multishot ∈ (analysisPass
      { file_exists := fun _ => true, singleshot_msgs := fun _ => [],
        multishot_msgs := fun _ =>
          [{ signal := Signal.done, status_percent := none,
             updated_data := [] }] } 1
      { shots := initialShotsModel, analysis_paused := false,
        multishot_required := true }).2 :=
  (c3_multishot_after_pass
      { file_exists := fun _ => true, singleshot_msgs := fun _ => [],
        multishot_msgs := fun _ =>
          [{ signal := Signal.done, status_percent := none,
             updated_data := [] }] } 0 0
      { shots := initialShotsModel, analysis_paused := false,
        multishot_required := true }
      { signal := Signal.done, status_percent := none, updated_data := [] }
      [] []).2.2.2.2 rfl rfl rfl

/-! ### C6: ingestion is independent of the paused flag -/

/-- C6: the incoming buffer loop behaves the same whatever the value of
`analysis_paused` (it only reads and writes the shots model, passing the flag
through), while the analysis loop consults the flag: with analysis paused the
inner loop dispatches nothing and returns at once, so no shot is sent to the
workers. -/
theorem c6_ingestion_independent_of_pause (readable : String → Bool)
    (row_of : String → DfRow) (first : String) (queued : List String)
    (fb : FileBoxState) (b : Bool) (env : AnalysisEnv) (fuel k : Nat)
    (a : Bool) (f : String) :
    (incomingStep readable row_of first queued
        { fb with analysis_paused := b } =
      ({ (incomingStep readable row_of first queued fb).1 with
          analysis_paused := b },
        (incomingStep readable row_of first queued fb).2)) ∧
    ((incomingStep readable row_of first queued fb).1.analysis_paused =
      fb.analysis_paused) ∧
    (fb.analysis_paused = true →
      analysisLoopInner env fuel k a fb = (fb, [], k)) ∧
    (fb.analysis_paused = true →
      SEvent.dispatched f ∉ (analysisPass env fuel fb).2) := by
  refine ⟨?_, ?_, ?_, ?_⟩
  · unfold incomingStep
    dsimp only
    cases h : incomingStepShots readable row_of first queued fb.shots with
    | mk o pend => cases o <;> rfl
  · unfold incomingStep
    cases h : incomingStepShots readable row_of first queued fb.shots with
    | mk o pend => cases o <;> rfl
  · intro hp
    cases fuel with
    | zero => rfl
    | succ fl => rw [analysisLoopInner, if_neg (by simp [hp])]
  · intro hp
    have hinner : analysisLoopInner env fuel 0 false fb = (fb, [], 0) := by
      cases fuel with
      | zero => rfl
      | succ fl => rw [analysisLoopInner, if_neg (by simp [hp])]
    unfold analysisPass
    dsimp only
    rw [hinner]
    dsimp only
    split
    · simp
    · simp

/-- C6 (witness): with analysis paused, the inner analysis loop does
nothing. -/
theorem c6_ingestion_independent_of_pause_witness :
    analysisLoopInner
      { file_exists := fun _ => true, singleshot_msgs := fun _ => [],
        multishot_msgs := fun _ => [] } 1 0 false
      { shots := initialShotsModel, analysis_paused := true,
        multishot_required := false } =
      ({ shots := initialShotsModel, analysis_paused := true,
         multishot_required := false }, [], 0) :=
  (c6_ingestion_independent_of_pause (fun _ => true)
      (fun f => { filepath := f, fields := [] }) "a" []
      { shots := initialShotsModel, analysis_paused := true,
        multishot_required := false } true
      { file_exists := fun _ => true, singleshot_msgs := fun _ => [],
        multishot_msgs := fun _ => [] } 1 0 false "a").2.2.1 rfl

/-- C1 (witness): marking a not-deleted shot not done resets its status
percent to 0, and the skipped-deleted exception does not apply to it. -/
theorem c1_first_incomplete_and_reset_witness :
    ((mark_selection_not_done
        { dataframe := [{ filepath := "a", fields := [] },
                        { filepath := "b", fields := [] }]
          qt_rows := [{ filepath := "a", status_percent := 100,
                        deleted_off_disk := false },
                      { filepath := "b", status_percent := 0,
                        deleted_off_disk := false }]
          row_number_by_filepath := [("a", 0), ("b", 1)]
          previous_n_digits := 1 }
        (fun _ => true) [0]).qt_rows[0]?).map QtRow.status_percent =
      some 0 :=
  (((c1_first_incomplete_and_reset
      { dataframe := [{ filepath := "a", fields := [] },
                      { filepath := "b", fields := [] }]
        qt_rows := [{ filepath := "a", status_percent := 100,
                      deleted_off_disk := false },
                    { filepath := "b", status_percent := 0,
                      deleted_off_disk := false }]
        row_number_by_filepath := [("a", 0), ("b", 1)]
        previous_n_digits := 1 }
      (fun _ => true) [0]
      { shots := initialShotsModel, analysis_paused := false,
        multishot_required := false }
      { file_exists := fun _ => true, singleshot_msgs := fun _ => [],
        multishot_msgs := fun _ => [] } 0 0 false
      "a").2.2.2 0 (by decide) (by decide)).trans (by decide))

/-- C5 (witness): with three rows in the dataframe the claimed bound
`len(dataframe) // 3 + 1` does hold. -/
theorem c5_batch_bounds_witness :
    1 ≤ (incomingBatch 3 "a" ["b"]).length ∧
    (incomingBatch 3 "a" ["b"]).length ≤ 3 / 3 + 1 :=
  ⟨(c5_batch_bounds 3 "a" ["b"]).2.1,
    (c5_batch_bounds 3 "a" ["b"]).2.2.2 (by decide)⟩

/-- C8: `do_analysis` returns `True` exactly when the user script raises no
exception; the script runs with the working directory set to the script
directory; and in both outcomes the original working directory is restored
and the post-analysis plot actions are performed, leaving the worker ready
for the next analysis. -/
theorem c8_do_analysis (script_dir : String)
    (script : WorkerState → Except WorkerState WorkerState) (s : WorkerState) :
    ((do_analysis script_dir script s).1 = true ↔
      ∃ s', script (scriptEntryState script_dir s) = Except.ok s') ∧
    (scriptEntryState script_dir s).cwd = script_dir ∧
    (do_analysis script_dir script s).2.cwd = s.cwd ∧
    "post_analysis_plot_actions" ∈ (do_analysis script_dir script s).2.actions := by
  unfold do_analysis
  cases h : script (scriptEntryState script_dir s) with
  | ok s' => simp [scriptEntryState]
  | error s' => simp [scriptEntryState]

/-- C10: the worker sends exactly one reply per task except `quit`, which
sends none and shuts the worker down; an analyse task is answered with
`done`/`error` plus the updated data according to the outcome, an
unrecognised task with an `error` reply, and no reply of any other shape is
ever sent. -/
theorem c10_parentloop_replies (δ : Type) (success : Bool) (updated : δ)
    (t : TaskMsg) :
    ((parentloopStep δ success updated t).1.length =
      if t = TaskMsg.quit then 0 else 1) ∧
    ((parentloopStep δ success updated t).2 = true ↔ t = TaskMsg.quit) ∧
    (∀ path, t = TaskMsg.analyse path →
      (parentloopStep δ success updated t).1 =
        [if success then ("done", ReplyPayload.data updated)
         else ("error", ReplyPayload.data updated)]) ∧
    (∀ r ∈ (parentloopStep δ success updated t).1,
      (r = ("done", ReplyPayload.data updated) ∧ success = true) ∨
      (r = ("error", ReplyPayload.data updated) ∧ success = false) ∨
      (∃ name, t = TaskMsg.other name ∧
        r = ("error", ReplyPayload.text ("invalid task " ++ name)))) := by
  cases t <;> cases success <;> simp [parentloopStep]

/-- C10 (witness): an analyse task that succeeded is answered by the single
reply `done` with the updated data. -/
theorem c10_parentloop_replies_witness :
    (parentloopStep Nat true 0 (TaskMsg.analyse none)).1 =
      [("done", ReplyPayload.data 0)] := by
  have h := (c10_parentloop_replies Nat true 0 (TaskMsg.analyse none)).2.2.1
    none rfl
  simpa using h

/-! ### Dictionary and enumeration lemmas for the column claims -/

theorem dedupFirst_eq_self_of_nodup {α : Type} [DecidableEq α] :
    ∀ (l : List α), l.Nodup → dedupFirst l = l := by
  intro l
  induction l using dedupFirst.induct with
  | case1 => intro _; simp [dedupFirst]
  | case2 x xs ih =>
      intro hnd
      rw [dedupFirst]
      have hx : x ∉ xs := (List.nodup_cons.1 hnd).1
      have hxs : xs.filter (fun y => decide (y ≠ x)) = xs := by
        apply List.filter_eq_self.2
        intro a ha
        simp only [decide_eq_true_eq]
        intro hax
        exact hx (hax ▸ ha)
      rw [hxs] at ih ⊢
      rw [ih ((List.nodup_cons.1 hnd).2)]

theorem dictFind_mem {α β : Type} [DecidableEq α] :
    ∀ (m : List (α × β)) (k : α) (v : β),
      Dict.find m k = some v → (k, v) ∈ m := by
  intro m
  induction m with
  | nil => intro k v h; cases h
  | cons p t ih =>
      intro k v h
      rw [Dict.find] at h
      by_cases hk : p.1 = k
      · rw [if_pos hk] at h
        injection h with hv
        have hp : p = (k, v) := by
          cases p with
          | mk a b =>
              simp only at hk hv
              rw [hk, hv]
        rw [← hp]
        exact List.mem_cons_self _ _
      · rw [if_neg hk] at h
        exact List.mem_cons_of_mem _ (ih k v h)

theorem dictFind_isSome {α β : Type} [DecidableEq α] :
    ∀ (m : List (α × β)) (k : α),
      k ∈ m.map Prod.fst → ∃ v, Dict.find m k = some v := by
  intro m
  induction m with
  | nil => intro k h; simp at h
  | cons p t ih =>
      intro k h
      by_cases hk : p.1 = k
      · exact ⟨p.2, by rw [Dict.find, if_pos hk]⟩
      · have h' : k ∈ t.map Prod.fst := by
          rcases List.mem_map.1 h with ⟨q, hq, hq1⟩
          rcases List.mem_cons.1 hq with rfl | hqt
          · exact absurd hq1 hk
          · exact hq1 ▸ List.mem_map_of_mem Prod.fst hqt
        rcases ih k h' with ⟨v, hv⟩
        exact ⟨v, by rw [Dict.find, if_neg hk]; exact hv⟩

theorem dictFind_append_left {α β : Type} [DecidableEq α] :
    ∀ (m m' : List (α × β)) (k : α) (v : β),
      Dict.find m k = some v → Dict.find (m ++ m') k = some v := by
  intro m m' k v
  induction m with
  | nil => intro h; cases h
  | cons p t ih =>
      intro h
      rw [Dict.find] at h
      rw [List.cons_append, Dict.find]
      by_cases hk : p.1 = k
      · rwa [if_pos hk] at h ⊢
      · rw [if_neg hk] at h ⊢
        exact ih h

theorem dictFind_enumFrom {α : Type} :
    ∀ (l : List α) (n k : Nat),
      Dict.find (List.enumFrom n l) k =
        if n ≤ k then l[k - n]? else none := by
  intro l
  induction l with
  | nil =>
      intro n k
      rw [show List.enumFrom n ([] : List α) = [] from rfl, Dict.find]
      by_cases h : n ≤ k
      · simp [h]
      · simp [h]
  | cons a t ih =>
      intro n k
      rw [show List.enumFrom n (a :: t) = (n, a) :: List.enumFrom (n + 1) t
        from rfl, Dict.find]
      by_cases hk : n = k
      · subst hk
        simp
      · rw [if_neg hk, ih (n + 1) k]
        rcases Nat.lt_trichotomy n k with h | h | h
        · have h1 : n + 1 ≤ k := h
          have h2 : n ≤ k := Nat.le_of_lt h
          rw [if_pos h1, if_pos h2]
          have : k - n = (k - (n + 1)) + 1 := by omega
          rw [this, List.getElem?_cons_succ]
        · exact absurd h hk
        · rw [if_neg (by omega), if_neg (by omega)]

theorem dictFind_enum {α : Type} (l : List α) (k : Nat) :
    Dict.find l.enum k = l[k]? := by
  have h := dictFind_enumFrom l 0 k
  simpa using h

theorem foldl_eraseKey_eq_filter {α β : Type} [DecidableEq α] :
    ∀ (ks : List α) (m : List (α × β)),
      ks.foldl (fun acc k => eraseKey acc k) m =
        m.filter (fun p => decide (p.1 ∉ ks)) := by
  intro ks
  induction ks with
  | nil => intro m; simp
  | cons k t ih =>
      intro m
      rw [List.foldl_cons, ih, eraseKey, List.filter_filter]
      apply List.filter_congr
      intro p _
      by_cases h1 : p.1 = k <;> by_cases h2 : p.1 ∈ t <;>
        simp [h1, h2]

theorem enumFrom_filter_key_congr {α : Type} :
    ∀ (l : List α) (n : Nat) (P Q : Nat → Bool),
      (∀ i, n ≤ i → P i = Q i) →
      (List.enumFrom n l).filter (fun p => P p.1) =
        (List.enumFrom n l).filter (fun p => Q p.1) := by
  intro l
  induction l with
  | nil => intro n P Q _; rfl
  | cons a t ih =>
      intro n P Q h
      rw [show List.enumFrom n (a :: t) = (n, a) :: List.enumFrom (n + 1) t
        from rfl]
      rw [List.filter_cons, List.filter_cons]
      rw [h n (Nat.le_refl n), ih (n + 1) P Q (fun i hi => h i (by omega))]

theorem enum_map_reindex {α : Type} :
    ∀ (l : List (Nat × α)) (n : Nat),
      (List.enumFrom n l).map (fun p => (p.1, p.2.2)) =
        List.enumFrom n (l.map Prod.snd) := by
  intro l
  induction l with
  | nil => intro n; rfl
  | cons a t ih =>
      intro n
      rw [show List.enumFrom n (a :: t) = (n, a) :: List.enumFrom (n + 1) t
        from rfl, List.map_cons, ih (n + 1)]
      rfl

/-- Removing positions in strictly descending order equals keeping the
positions outside the removal set (the reverse order keeps the indices of the
columns yet to be removed valid, which is why the code removes in reverse). -/
theorem foldl_eraseIdx_desc {α : Type} :
    ∀ (ds : List Nat) (l : List α),
      ds.Pairwise (· > ·) → (∀ d ∈ ds, d < l.length) →
      ds.foldl (fun acc d => acc.eraseIdx d) l =
        (l.enum.filter (fun p => decide (p.1 ∉ ds))).map Prod.snd := by
  intro ds
  induction ds with
  | nil =>
      intro l _ _
      simp [List.enum_map_snd]
  | cons d ds ih =>
      intro l hpair hlt
      have hd : d < l.length := hlt d (List.mem_cons_self _ _)
      have hds_lt : ∀ d' ∈ ds, d' < d :=
        fun d' h' => (List.pairwise_cons.1 hpair).1 d' h'
      rw [List.foldl_cons, ih (l.eraseIdx d) (List.pairwise_cons.1 hpair).2 ?_]
      · -- both sides are: take-part filtered ++ everything after position d
        rw [List.eraseIdx_eq_take_drop_succ]
        have hlen_take : (l.take d).length = d := by
          rw [List.length_take]; omega
        rw [List.enum_append, hlen_take]
        conv_rhs =>
          rw [← List.take_append_drop d l, List.enum_append, hlen_take,
            List.drop_eq_getElem_cons hd,
            show List.enumFrom d (l[d] :: l.drop (d + 1)) =
              (d, l[d]) :: List.enumFrom (d + 1) (l.drop (d + 1)) from rfl]
        rw [List.filter_append, List.filter_append, List.filter_cons_of_neg
          (by simp)]
        rw [List.map_append, List.map_append]
        congr 1
        · -- the part before position d: both filters agree there
          congr 1
          apply List.filter_congr
          intro p hp
          have hkey : p.1 < d := by
            have h1 : p.1 ∈ (l.take d).enum.map Prod.fst :=
              List.mem_map_of_mem Prod.fst hp
            rw [List.enum_map_fst] at h1
            have := List.mem_range.1 h1
            omega
          simp only [decide_eq_decide, List.mem_cons, not_or]
          constructor
          · intro h; exact ⟨by omega, h⟩
          · intro h; exact h.2
        · -- the parts after position d (shifted on the left, unshifted on the
          -- right): no index there is ever removed, so both map to the same
          -- element list
          rw [enumFrom_filter_key_congr (l.drop (d + 1)) d
            (fun i => decide (i ∉ ds)) (fun _ => true) ?_,
            enumFrom_filter_key_congr (l.drop (d + 1)) (d + 1)
            (fun i => decide (i ∉ (d :: ds))) (fun _ => true) ?_]
          · rw [List.filter_true, List.filter_true, List.enumFrom_map_snd,
              List.enumFrom_map_snd]
          · intro i hi
            simp only [decide_eq_true_eq, eq_iff_iff, iff_true]
            intro hmem
            rcases List.mem_cons.1 hmem with h | h
            · omega
            · have := hds_lt i h
              omega
          · intro i hi
            simp only [decide_eq_true_eq, eq_iff_iff, iff_true]
            intro hmem
            have := hds_lt i hmem
            omega
      · intro d' h'
        have h1 := hds_lt d' h'
        rw [List.length_eraseIdx_of_lt hd]
        omega

theorem foldl_removeColumnStep_qt :
    ∀ (ds : List Nat) (s : ColState),
      (ds.foldl removeColumnStep s).qt_columns =
        ds.foldl (fun l d => l.eraseIdx d) s.qt_columns := by
  intro ds
  induction ds with
  | nil => intro s; rfl
  | cons d t ih => intro s; rw [List.foldl_cons, List.foldl_cons, ih]; rfl

theorem foldl_removeColumnStep_names :
    ∀ (ds : List Nat) (s : ColState),
      (ds.foldl removeColumnStep s).column_names =
        ds.foldl (fun m d => eraseKey m d) s.column_names := by
  intro ds
  induction ds with
  | nil => intro s; rfl
  | cons d t ih => intro s; rw [List.foldl_cons, List.foldl_cons, ih]; rfl

theorem foldl_removeColumnStep_indices :
    ∀ (ds : List Nat) (s : ColState),
      (ds.foldl removeColumnStep s).column_indices = s.column_indices := by
  intro ds
  induction ds with
  | nil => intro s; rfl
  | cons d t ih => intro s; rw [List.foldl_cons, ih]; rfl

theorem insertNewColumns_qt (s : ColState) (new : List ColName) :
    (insertNewColumns s new).qt_columns = s.qt_columns ++ new := rfl

theorem insertNewColumns_names (s : ColState) (new : List ColName)
    (h1 : s.column_names = s.qt_columns.enum) :
    (insertNewColumns s new).column_names = (s.qt_columns ++ new).enum := by
  show (new.enum.foldl
      (fun m p => dictInsert m (s.qt_columns.length + p.1) p.2)
      s.column_names) = _
  have hfold : new.enum.foldl
      (fun m p => dictInsert m (s.qt_columns.length + p.1) p.2)
      s.column_names =
      (new.enum.map (fun p => (s.qt_columns.length + p.1, p.2))).foldl
        (fun m p => dictInsert m p.1 p.2) s.column_names := by
    rw [List.foldl_map]
  rw [hfold, foldl_dictInsert_fresh _ _ ?_ ?_]
  · rw [h1, List.enum_append]
    congr 1
    rw [List.enumFrom_eq_map_enum]
    apply List.map_eq_map_iff.mpr
    intro p _
    show (s.qt_columns.length + p.1, p.2) = (p.1 + s.qt_columns.length, p.2)
    rw [Nat.add_comm]
  · intro q hq p hp
    rcases List.mem_map.1 hq with ⟨pr, _, rfl⟩
    rw [h1] at hp
    have hple : p.1 < s.qt_columns.length := by
      have h' : p.1 ∈ s.qt_columns.enum.map Prod.fst :=
        List.mem_map_of_mem Prod.fst hp
      rw [List.enum_map_fst] at h'
      exact List.mem_range.1 h'
    show p.1 ≠ s.qt_columns.length + pr.1
    omega
  · rw [List.map_map]
    have heq : (Prod.fst ∘ fun p : Nat × ColName =>
        (s.qt_columns.length + p.1, p.2)) =
        ((fun i => s.qt_columns.length + i) ∘ Prod.fst) := rfl
    rw [heq, ← List.map_map, List.enum_map_fst]
    exact (List.nodup_range _).map (fun a b h => by omega)

theorem insertNewColumns_indices (s : ColState) (new : List ColName)
    (h1 : s.column_names = s.qt_columns.enum)
    (h2 : s.column_indices = s.column_names.map (fun p => (p.2, p.1)))
    (hnd : new.Nodup) (hfresh : ∀ c ∈ new, c ∉ s.qt_columns) :
    (insertNewColumns s new).column_indices =
      (insertNewColumns s new).column_names.map (fun p => (p.2, p.1)) := by
  rw [insertNewColumns_names s new h1]
  show (new.enum.foldl
      (fun m p => dictInsert m p.2 (s.qt_columns.length + p.1))
      s.column_indices) = _
  have hfold : new.enum.foldl
      (fun m p => dictInsert m p.2 (s.qt_columns.length + p.1))
      s.column_indices =
      (new.enum.map (fun p => (p.2, s.qt_columns.length + p.1))).foldl
        (fun m p => dictInsert m p.1 p.2) s.column_indices := by
    rw [List.foldl_map]
  rw [hfold, foldl_dictInsert_fresh _ _ ?_ ?_]
  · rw [h2, h1, List.enum_append, List.map_append]
    congr 1
    rw [List.enumFrom_eq_map_enum, List.map_map]
    apply List.map_eq_map_iff.mpr
    intro p _
    show (p.2, s.qt_columns.length + p.1) = (p.2, p.1 + s.qt_columns.length)
    rw [Nat.add_comm]
  · intro q hq p hp
    rcases List.mem_map.1 hq with ⟨pr, hpr, rfl⟩
    rw [h2, h1] at hp
    rcases List.mem_map.1 hp with ⟨pq, hpq, rfl⟩
    show pq.2 ≠ pr.2
    intro heq
    have h1' : pq.2 ∈ s.qt_columns := by
      have := List.mem_map_of_mem Prod.snd hpq
      rwa [List.enum_map_snd] at this
    have h2' : pr.2 ∈ new := by
      have := List.mem_map_of_mem Prod.snd hpr
      rwa [List.enum_map_snd] at this
    exact hfresh pr.2 h2' (heq ▸ h1')
  · rw [List.map_map]
    have heq : (Prod.fst ∘ fun p : Nat × ColName =>
        (p.2, s.qt_columns.length + p.1)) = Prod.snd := rfl
    rw [heq, List.enum_map_snd]
    exact hnd

theorem filtered_enum_head2 {α : Type} (l : List α) (P : Nat → Bool)
    (h0 : P 0 = true) (h1 : P 1 = true) (hl : 1 < l.length) :
    ((l.enum.filter (fun p => P p.1)).map Prod.snd)[0]? = l[0]? ∧
    ((l.enum.filter (fun p => P p.1)).map Prod.snd)[1]? = l[1]? := by
  cases l with
  | nil => simp at hl
  | cons a t =>
      cases t with
      | nil => simp at hl
      | cons b r =>
          have henum : (a :: b :: r).enum =
              (0, a) :: (1, b) :: List.enumFrom 2 r := rfl
          rw [henum, List.filter_cons_of_pos (by exact h0),
            List.filter_cons_of_pos (by exact h1)]
          exact ⟨by simp, by simp⟩

/-- The full specification of the schema synchronisation performed by
`update_row_columns`: the column invariant is preserved, and the header
columns afterwards are exactly the status column plus the dataframe
columns. -/
theorem update_row_columns_spec (fp : ColName) (dfCols : List ColName)
    (s : ColState) (hinv : ColInv fp s) (hfp : fp ∈ dfCols) :
    ColInv fp (update_row_columns dfCols s) ∧
    ∀ c, c ∈ (update_row_columns dfCols s).qt_columns ↔
      (c = ColName.status ∨ c ∈ dfCols) := by
  obtain ⟨h1, h2, h3, h4, h5⟩ := hinv
  set new := List.insertionSort (fun a b => colLe a b = true)
    ((dedupFirst dfCols).filter
      (fun c => decide (c ∉ s.column_names.map Prod.snd))) with hnew_def
  set s₁ := insertNewColumns s new with hs₁_def
  set defunct := (dedupFirst (s₁.column_names.map Prod.snd)).filter
      (fun c => decide (c ∉ dfCols ∧
        some c ≠ Dict.find s₁.column_names 0 ∧
        some c ≠ Dict.find s₁.column_names 1)) with hdefunct_def
  set ds := defunct.filterMap (fun c => Dict.find s₁.column_indices c)
    with hds_def
  set rev := (List.insertionSort (fun a b : Nat => a ≤ b) ds).reverse
    with hrev_def
  set s₂ := rev.foldl removeColumnStep s₁ with hs₂_def
  have hresult : update_row_columns dfCols s =
      (if ds ≠ [] then
        { s₂ with
          column_names := ((List.insertionSort
              (fun p q : Nat × ColName => p.1 ≤ q.1) s₂.column_names).enum.map
            (fun p => (p.1, p.2.2)))
          columns_visible := ((List.insertionSort
              (fun p q : Nat × Bool => p.1 ≤ q.1) s₂.columns_visible).enum.map
            (fun p => (p.1, p.2.2)))
          column_indices := ((List.insertionSort
              (fun p q : Nat × ColName => p.1 ≤ q.1) s₂.column_names).enum.map
            (fun p => (p.2.2, p.1))) }
      else s₂) := rfl
  have hvalues : s.column_names.map Prod.snd = s.qt_columns := by
    rw [h1, List.enum_map_snd]
  have hnew_nodup : new.Nodup := by
    rw [hnew_def]
    exact (List.perm_insertionSort _ _).symm.nodup
      (List.Nodup.filter _ (dedupFirst_nodup dfCols))
  have hnew_mem : ∀ c, c ∈ new ↔ (c ∈ dfCols ∧ c ∉ s.qt_columns) := by
    intro c
    rw [hnew_def, (List.perm_insertionSort _ _).mem_iff, List.mem_filter,
      mem_dedupFirst]
    simp [hvalues]
  have hnew_fresh : ∀ c ∈ new, c ∉ s.qt_columns :=
    fun c hc => ((hnew_mem c).1 hc).2
  have hq1 : s₁.qt_columns = s.qt_columns ++ new := rfl
  have hn1 : s₁.column_names = (s.qt_columns ++ new).enum :=
    insertNewColumns_names s new h1
  have hi1 : s₁.column_indices = s₁.column_names.map (fun p => (p.2, p.1)) :=
    insertNewColumns_indices s new h1 h2 hnew_nodup hnew_fresh
  have hnd1 : (s.qt_columns ++ new).Nodup := by
    rw [List.nodup_append]
    exact ⟨h3, hnew_nodup, fun a ha hb => hnew_fresh a hb ha⟩
  have hq0 : s.qt_columns[0]? = some ColName.status := by
    rw [← dictFind_enum, ← h1]; exact h4
  have hq1e : s.qt_columns[1]? = some fp := by
    rw [← dictFind_enum, ← h1]; exact h5
  have hlen0 : 0 < s.qt_columns.length := by
    rcases List.getElem?_eq_some.1 hq0 with ⟨h, _⟩; exact h
  have hlen1 : 1 < s.qt_columns.length := by
    rcases List.getElem?_eq_some.1 hq1e with ⟨h, _⟩; exact h
  have hq0₁ : (s.qt_columns ++ new)[0]? = some ColName.status := by
    rw [List.getElem?_append_left hlen0]; exact hq0
  have hq1₁ : (s.qt_columns ++ new)[1]? = some fp := by
    rw [List.getElem?_append_left hlen1]; exact hq1e
  have h40 : Dict.find s₁.column_names 0 = some ColName.status := by
    rw [hn1, dictFind_enum]; exact hq0₁
  have h41 : Dict.find s₁.column_names 1 = some fp := by
    rw [hn1, dictFind_enum]; exact hq1₁
  have hval1 : s₁.column_names.map Prod.snd = s.qt_columns ++ new := by
    rw [hn1, List.enum_map_snd]
  have hdefunct_mem : ∀ c, c ∈ defunct ↔
      (c ∈ s.qt_columns ++ new ∧ c ∉ dfCols ∧ c ≠ ColName.status ∧ c ≠ fp) := by
    intro c
    rw [hdefunct_def, List.mem_filter, mem_dedupFirst, hval1, h40, h41]
    simp [and_assoc]
  have hfind_idx : ∀ c d, Dict.find s₁.column_indices c = some d →
      (s.qt_columns ++ new)[d]? = some c := by
    intro c d h
    rw [hi1] at h
    have hmem := dictFind_mem _ _ _ h
    rcases List.mem_map.1 hmem with ⟨p, hp, hpe⟩
    obtain ⟨i, x⟩ := p
    injection hpe with he1 he2
    rw [hn1] at hp
    subst he1
    subst he2
    exact (List.mk_mem_enum_iff_getElem?).1 hp
  have hkeys_i1 : s₁.column_indices.map Prod.fst = s.qt_columns ++ new := by
    rw [hi1, List.map_map]
    have hc : (Prod.fst ∘ fun p : Nat × ColName => (p.2, p.1)) = Prod.snd := rfl
    rw [hc, hval1]
  have hfind_exists : ∀ c ∈ s.qt_columns ++ new,
      ∃ d, Dict.find s₁.column_indices c = some d := by
    intro c hc
    apply dictFind_isSome
    rw [hkeys_i1]; exact hc
  have hds_mem : ∀ d, d ∈ ds ↔
      ∃ c, c ∈ defunct ∧ Dict.find s₁.column_indices c = some d := by
    intro d
    rw [hds_def]
    exact List.mem_filterMap
  have hds_bound : ∀ d ∈ ds, d < (s.qt_columns ++ new).length := by
    intro d hd
    rcases (hds_mem d).1 hd with ⟨c, _, hfind⟩
    rcases List.getElem?_eq_some.1 (hfind_idx c d hfind) with ⟨h, _⟩
    exact h
  have h0ds : 0 ∉ ds := by
    intro h0
    rcases (hds_mem 0).1 h0 with ⟨c, hcd, hfind⟩
    have hcg := hfind_idx c 0 hfind
    have hcs := hcg.symm.trans hq0₁
    injection hcs with hcs
    exact ((hdefunct_mem c).1 hcd).2.2.1 hcs
  have h1ds : 1 ∉ ds := by
    intro h0
    rcases (hds_mem 1).1 h0 with ⟨c, hcd, hfind⟩
    have hcg := hfind_idx c 1 hfind
    have hcs := hcg.symm.trans hq1₁
    injection hcs with hcs
    exact ((hdefunct_mem c).1 hcd).2.2.2 hcs
  have hds_nodup : ds.Nodup := by
    rw [hds_def]
    apply List.Nodup.filterMap ?_
      (List.Nodup.filter _ (dedupFirst_nodup _))
    intro a a' b hb hb'
    have ha := hfind_idx a b (Option.mem_def.1 hb)
    have ha' := hfind_idx a' b (Option.mem_def.1 hb')
    have h' := ha.symm.trans ha'
    injection h'
  have hrev_mem : ∀ d, d ∈ rev ↔ d ∈ ds := by
    intro d
    rw [hrev_def, List.mem_reverse, (List.perm_insertionSort _ _).mem_iff]
  have hrev_pair : rev.Pairwise (· > ·) := by
    rw [hrev_def]
    apply List.pairwise_reverse.2
    have hsorted : (List.insertionSort (fun a b : Nat => a ≤ b) ds).Pairwise
        (fun a b => a ≤ b) := List.sorted_insertionSort _ _
    have hnd' : (List.insertionSort (fun a b : Nat => a ≤ b) ds).Nodup :=
      (List.perm_insertionSort _ ds).symm.nodup hds_nodup
    exact (hsorted.and hnd').imp (fun h => lt_of_le_of_ne h.1 h.2)
  have hq2 : s₂.qt_columns =
      ((s.qt_columns ++ new).enum.filter
        (fun p => decide (p.1 ∉ ds))).map Prod.snd := by
    rw [hs₂_def, foldl_removeColumnStep_qt, hq1,
      foldl_eraseIdx_desc rev _ hrev_pair
        (fun d hd => hds_bound d ((hrev_mem d).1 hd))]
    congr 1
    apply List.filter_congr
    intro p _
    simp [hrev_mem]
  have hn2 : s₂.column_names =
      (s.qt_columns ++ new).enum.filter (fun p => decide (p.1 ∉ ds)) := by
    rw [hs₂_def, foldl_removeColumnStep_names, foldl_eraseKey_eq_filter, hn1]
    apply List.filter_congr
    intro p _
    simp [hrev_mem]
  have hqn2 : s₂.column_names.map Prod.snd = s₂.qt_columns := by
    rw [hq2, hn2]
  have hnd2 : s₂.qt_columns.Nodup := by
    rw [hq2]
    have hsub := (List.filter_sublist
      (l := (s.qt_columns ++ new).enum)
      (p := fun p => decide (p.1 ∉ ds))).map Prod.snd
    rw [List.enum_map_snd] at hsub
    exact hnd1.sublist hsub
  have hq2_mem : ∀ c, c ∈ s₂.qt_columns ↔
      ∃ i, (s.qt_columns ++ new)[i]? = some c ∧ i ∉ ds := by
    intro c
    rw [hq2]
    constructor
    · intro hc
      rcases List.mem_map.1 hc with ⟨p, hp, rfl⟩
      rcases List.mem_filter.1 hp with ⟨hpe, hpp⟩
      obtain ⟨i, x⟩ := p
      refine ⟨i, (List.mk_mem_enum_iff_getElem?).1 hpe, ?_⟩
      simpa using hpp
    · rintro ⟨i, hgi, hni⟩
      apply List.mem_map.2
      exact ⟨(i, c), List.mem_filter.2
        ⟨(List.mk_mem_enum_iff_getElem?).2 hgi, by simpa using hni⟩, rfl⟩
  have hstatus2 : s₂.qt_columns[0]? = some ColName.status ∧
      s₂.qt_columns[1]? = some fp := by
    rw [hq2]
    have hlen₁ : 1 < (s.qt_columns ++ new).length := by
      rw [List.length_append]; omega
    have hh := filtered_enum_head2 (s.qt_columns ++ new)
      (fun i => decide (i ∉ ds)) (by simpa using h0ds) (by simpa using h1ds)
      hlen₁
    exact ⟨hh.1.trans hq0₁, hh.2.trans hq1₁⟩
  have himp1 : ∀ c, c ∈ s.qt_columns ++ new → c ∉ defunct →
      (c = ColName.status ∨ c ∈ dfCols) := by
    intro c hc hnd'
    by_contra hcon
    push_neg at hcon
    obtain ⟨hcs, hcd⟩ := hcon
    have hcfp : c ≠ fp := fun h => hcd (h ▸ hfp)
    exact hnd' ((hdefunct_mem c).2 ⟨hc, hcd, hcs, hcfp⟩)
  have himp2 : ∀ c, (c = ColName.status ∨ c ∈ dfCols) →
      c ∈ s.qt_columns ++ new := by
    intro c hc
    rcases hc with rfl | hcd
    · exact List.getElem?_mem hq0₁
    · by_cases hq : c ∈ s.qt_columns
      · exact List.mem_append_left _ hq
      · exact List.mem_append_right _ ((hnew_mem c).2 ⟨hcd, hq⟩)
  have hdef_not : ∀ c, (c = ColName.status ∨ c ∈ dfCols) → c ∉ defunct := by
    intro c hc hdc
    rcases (hdefunct_mem c).1 hdc with ⟨_, hcd, hcs, _⟩
    rcases hc with rfl | h
    · exact hcs rfl
    · exact hcd h
  rw [hresult]
  by_cases hds0 : ds = []
  · rw [if_neg (fun h => h hds0)]
    have hrevnil : rev = [] := by rw [hrev_def, hds0]; rfl
    have hs2eq : s₂ = s₁ := by rw [hs₂_def, hrevnil]; rfl
    rw [hs2eq]
    refine ⟨⟨?_, hi1, ?_, h40, h41⟩, ?_⟩
    · rw [hn1, hq1]
    · rw [hq1]; exact hnd1
    · intro c
      rw [hq1]
      constructor
      · intro hc
        apply himp1 c hc
        intro hdc
        rcases hfind_exists c hc with ⟨d, hd⟩
        have hdds : d ∈ ds := (hds_mem d).2 ⟨c, hdc, hd⟩
        rw [hds0] at hdds
        simp at hdds
      · exact himp2 c
  · rw [if_pos hds0]
    have hsort_eq : List.insertionSort
        (fun p q : Nat × ColName => p.1 ≤ q.1) s₂.column_names =
        s₂.column_names := by
      apply List.Sorted.insertionSort_eq
      rw [hn2]
      have henum_pair : (s.qt_columns ++ new).enum.Pairwise
          (fun p q : Nat × ColName => p.1 < q.1) := by
        have hr := List.pairwise_lt_range ((s.qt_columns ++ new).length)
        rw [← List.enum_map_fst (s.qt_columns ++ new)] at hr
        exact List.pairwise_map.1 hr
      exact (List.Pairwise.sublist (List.filter_sublist _) henum_pair).imp
        (fun h => le_of_lt h)
    rw [hsort_eq]
    have hn3 : s₂.column_names.enum.map (fun p => (p.1, p.2.2)) =
        s₂.qt_columns.enum := by
      have h' : s₂.column_names.enum.map (fun p => (p.1, p.2.2)) =
          (s₂.column_names.map Prod.snd).enum :=
        enum_map_reindex s₂.column_names 0
      rw [h', hqn2]
    refine ⟨⟨hn3, ?_, hnd2, ?_, ?_⟩, ?_⟩
    · rw [List.map_map]
      rfl
    · rw [show ({ s₂ with
          column_names := (s₂.column_names.enum.map (fun p => (p.1, p.2.2)))
          columns_visible := ((List.insertionSort
              (fun p q : Nat × Bool => p.1 ≤ q.1) s₂.columns_visible).enum.map
            (fun p => (p.1, p.2.2)))
          column_indices := (s₂.column_names.enum.map (fun p => (p.2.2, p.1)))
          } : ColState).column_names =
        s₂.column_names.enum.map (fun p => (p.1, p.2.2)) from rfl,
        hn3, dictFind_enum]
      exact hstatus2.1
    · rw [show ({ s₂ with
          column_names := (s₂.column_names.enum.map (fun p => (p.1, p.2.2)))
          columns_visible := ((List.insertionSort
              (fun p q : Nat × Bool => p.1 ≤ q.1) s₂.columns_visible).enum.map
            (fun p => (p.1, p.2.2)))
          column_indices := (s₂.column_names.enum.map (fun p => (p.2.2, p.1)))
          } : ColState).column_names =
        s₂.column_names.enum.map (fun p => (p.1, p.2.2)) from rfl,
        hn3, dictFind_enum]
      exact hstatus2.2
    · intro c
      rw [show ({ s₂ with
          column_names := (s₂.column_names.enum.map (fun p => (p.1, p.2.2)))
          columns_visible := ((List.insertionSort
              (fun p q : Nat × Bool => p.1 ≤ q.1) s₂.columns_visible).enum.map
            (fun p => (p.1, p.2.2)))
          column_indices := (s₂.column_names.enum.map (fun p => (p.2.2, p.1)))
          } : ColState).qt_columns = s₂.qt_columns from rfl]
      rw [hq2_mem c]
      constructor
      · rintro ⟨i, hgi, hni⟩
        apply himp1 c (List.getElem?_mem hgi)
        intro hdc
        rcases hfind_exists c (List.getElem?_mem hgi) with ⟨d, hd⟩
        have hdds : d ∈ ds := (hds_mem d).2 ⟨c, hdc, hd⟩
        have hgd := hfind_idx c d hd
        rcases List.getElem?_eq_some.1 hgi with ⟨hi, hgi'⟩
        rcases List.getElem?_eq_some.1 hgd with ⟨hdlt, hgd'⟩
        have hid : i = d :=
          (List.Nodup.getElem_inj_iff hnd1).1 (hgi'.trans hgd'.symm)
        exact hni (hid ▸ hdds)
      · intro hc
        have hcq : c ∈ s.qt_columns ++ new := himp2 c hc
        rcases List.mem_iff_getElem.1 hcq with ⟨i, hi, hgi⟩
        refine ⟨i, List.getElem?_eq_some.2 ⟨hi, hgi⟩, ?_⟩
        intro hids
        rcases (hds_mem i).1 hids with ⟨c', hc', hfi⟩
        have hgc' := hfind_idx c' i hfi
        have hcc : c' = c := by
          rcases List.getElem?_eq_some.1 hgc' with ⟨_, hg⟩
          exact hg.symm.trans hgi
        exact (hdef_not c hc) (hcc ▸ hc')

/-- C2: when the column invariant holds and the dataframe has the filepath
column, after `update_row`'s schema pass the tuple-named columns of the Qt
model are exactly the dataframe columns (a model column is created when a new
field appears and removed when it disappears), the status and filepath
columns are never removed, and `column_names` / `column_indices` are exact
inverses of each other - the invariant is preserved for the next call. -/
theorem c2_update_row_schema_sync (fp : ColName) (dfCols : List ColName)
    (s : ColState) (hinv : ColInv fp s) (hfp : fp ∈ dfCols) :
    ColInv fp (update_row_columns dfCols s) ∧
    (∀ parts, ColName.tuple parts ∈ (update_row_columns dfCols s).qt_columns ↔
      ColName.tuple parts ∈ dfCols) ∧
    ColName.status ∈ (update_row_columns dfCols s).qt_columns ∧
    fp ∈ (update_row_columns dfCols s).qt_columns ∧
    (update_row_columns dfCols s).column_indices =
      (update_row_columns dfCols s).column_names.map (fun p => (p.2, p.1)) := by
  obtain ⟨hinv', hmem⟩ := update_row_columns_spec fp dfCols s hinv hfp
  refine ⟨hinv', ?_, ?_, ?_, hinv'.2.1⟩
  · intro parts
    rw [hmem]
    simp
  · rw [hmem]
    exact Or.inl rfl
  · rw [hmem]
    exact Or.inr hfp

/-- C2 (witness): updating the initial column state against a dataframe with
the filepath column and one data field keeps the invariant. -/
theorem c2_update_row_schema_sync_witness :
    ColInv (ColName.tuple ["filepath", ""])
      (update_row_columns
        [ColName.tuple ["filepath", ""], ColName.tuple ["foo", "bar"]]
        initialColState) :=
  (c2_update_row_schema_sync (ColName.tuple ["filepath", ""])
    [ColName.tuple ["filepath", ""], ColName.tuple ["foo", "bar"]]
    initialColState ⟨rfl, rfl, by decide, by decide, by decide⟩
    (by decide)).1

end Lyse

